import Mathlib

/-!
Verification of the printer scheduling engine (`backend/smart_scheduler.py`).

The Python code is shallowly embedded: dictionaries become association
lists (`Dict`), floats become exact rationals (`ℚ`), in-place mutation
becomes explicit state passing, and a raised exception becomes an error
value paired with the state at raise time (mutations made before the
raise persist, as they do for the Python caller).  Wall-clock time is a
logical counter `now`: every claim below is insensitive to real
durations, provided consecutive operations are less than the cache TTL
apart.
-/

set_option autoImplicit false

namespace PrintSched

/-! ### Python dictionaries as association lists

A `dict` is modelled as an insertion-ordered association list with
distinct keys.  `setKey` mirrors `d[k] = v` (overwrite in place, else
append), `updateWith` mirrors `d.update(m)`, `lookupD` mirrors
`d.get(k, default)`. -/

abbrev Dict (α : Type) := List (String × α)

def Dict.lookup? {α : Type} : Dict α → String → Option α
  | [], _ => none
  | (k0, v0) :: rest, k => if k0 = k then some v0 else Dict.lookup? rest k

def Dict.lookupD {α : Type} (d : Dict α) (k : String) (dflt : α) : α :=
  (d.lookup? k).getD dflt

def Dict.hasKey {α : Type} (d : Dict α) (k : String) : Bool :=
  (d.lookup? k).isSome

def Dict.setKey {α : Type} : Dict α → String → α → Dict α
  | [], k, v => [(k, v)]
  | (k0, v0) :: rest, k, v =>
    if k0 = k then (k, v) :: rest else (k0, v0) :: Dict.setKey rest k v

def Dict.updateWith {α : Type} (d upd : Dict α) : Dict α :=
  upd.foldl (fun acc kv => Dict.setKey acc kv.1 kv.2) d

/-- `d[k] = f(d[k])` for a key known to be present (a missing key would
be a Python `KeyError`; every use below is guarded so the key exists). -/
def Dict.modifyKey {α : Type} : Dict α → String → (α → α) → Dict α
  | [], _, _ => []
  | (k0, v0) :: rest, k, f =>
    if k0 = k then (k0, f v0) :: rest else (k0, v0) :: Dict.modifyKey rest k f

def Dict.keys {α : Type} (d : Dict α) : List String := d.map (·.1)

/-! ### Jobs and the bounded priority queue (`PrioritizedJob`, `PriorityQueue`)

`@dataclass(order=True)` with `timestamp`, `job_id` and `job_data`
marked `field(compare=False)` compares jobs by `priority` alone. -/

structure Req where
  paper_count : Dict Nat
  deriving DecidableEq, Repr, Inhabited

abbrev Order := Dict Req

abbrev SuborderReq := Dict Req

structure Job where
  priority : Int
  timestamp : Nat
  job_id : String
  job_data : SuborderReq
  deriving DecidableEq, Repr, Inhabited

/-- `PrioritizedJob.__lt__`: only `priority` takes part in comparison. -/
def jobLt (a b : Job) : Bool := a.priority < b.priority

/-! Python's `heapq` on a list, transcribed loop by loop.  The loops
take an explicit fuel argument that strictly overestimates their
iteration count (`_siftdown` moves `pos` strictly down each round,
`_siftup` moves it strictly up and below `heap.length`), so with the
fuel supplied by the wrappers the fuel-exhausted branch is unreachable. -/

/-- Loop body of `heapq._siftdown(heap, startpos, pos)` with
`newitem = heap[pos]` already read; `(pos - 1) / 2` is Python's
`parentpos = (pos - 1) >> 1` and `heap.getD parentpos default` its
`parent = heap[parentpos]` (always in range at the call sites). -/
def siftdownAux (newitem : Job) : Nat → List Job → Nat → Nat → List Job
  | 0, heap, _, pos => heap.set pos newitem
  | fuel + 1, heap, startpos, pos =>
    if startpos < pos then
      if jobLt newitem (heap.getD ((pos - 1) / 2) default) then
        siftdownAux newitem fuel (heap.set pos (heap.getD ((pos - 1) / 2) default))
          startpos ((pos - 1) / 2)
      else
        heap.set pos newitem
    else
      heap.set pos newitem

def siftdown (heap : List Job) (startpos pos : Nat) : List Job :=
  siftdownAux (heap.getD pos default) pos heap startpos pos

/-- The child `_siftup` descends to: the right child `2*pos + 2` when it
is in range and `not heap[childpos] < heap[rightpos]`, else the left
child `2*pos + 1`. -/
def siftupChild (heap : List Job) (pos : Nat) : Nat :=
  if 2 * pos + 2 < heap.length ∧
      ¬ jobLt (heap.getD (2 * pos + 1) default) (heap.getD (2 * pos + 2) default)
  then 2 * pos + 2 else 2 * pos + 1

/-- Loop body of `heapq._siftup(heap, pos)`: bubble the smaller child up
until a leaf, then `heap[pos] = newitem` followed by
`_siftdown(heap, startpos, pos)`. -/
def siftupAux (newitem : Job) : Nat → List Job → Nat → Nat → List Job
  | 0, heap, startpos, pos => siftdownAux newitem pos (heap.set pos newitem) startpos pos
  | fuel + 1, heap, startpos, pos =>
    if 2 * pos + 1 < heap.length then
      siftupAux newitem fuel (heap.set pos (heap.getD (siftupChild heap pos) default))
        startpos (siftupChild heap pos)
    else
      siftdownAux newitem pos (heap.set pos newitem) startpos pos

def siftup (heap : List Job) (pos : Nat) : List Job :=
  siftupAux (heap.getD pos default) heap.length heap pos pos

/-- `heapq.heappush(heap, item)`. -/
def heappush (heap : List Job) (item : Job) : List Job :=
  siftdown (heap ++ [item]) 0 heap.length

/-- `heapq.heappop(heap)` (the empty case is guarded by
`PriorityQueue.pop`). -/
def heappop (heap : List Job) : Option Job × List Job :=
  match heap with
  | [] => (none, [])
  | _ =>
    let lastelt := heap.getLastD default
    let rest := heap.dropLast
    if rest.isEmpty then (some lastelt, [])
    else (some (rest.getD 0 default), siftup (rest.set 0 lastelt) 0)

/-- `heapq.heapify(x)`: `for i in reversed(range(len(x)//2)): _siftup(x, i)`. -/
def heapifyAux (heap : List Job) : Nat → List Job
  | 0 => heap
  | i + 1 => heapifyAux (siftup heap i) i

def heapify (heap : List Job) : List Job :=
  heapifyAux heap (heap.length / 2)

namespace Config

def MAX_QUEUE_LENGTH : Nat := 10
def MAX_RETRIES : Nat := 3
def CACHE_TTL : Nat := 300

def DEFAULT_WEIGHTS : Dict ℚ :=
  [("paper", 0.35), ("ink", 0.30), ("speed", 0.15), ("queue", 0.15), ("extras", 0.05)]

def INK_CONSUMPTION : Dict (Dict ℚ) :=
  [ ("bw", [("black", 0.5)]),
    ("color", [("C", 0.3), ("M", 0.3), ("Y", 0.3), ("black", 0.1)]),
    ("glossy", [("C", 0.5), ("M", 0.5), ("Y", 0.5), ("black", 0.2)]),
    ("thick", [("C", 0.45), ("M", 0.45), ("Y", 0.45), ("black", 0.15)]),
    ("postersize", [("C", 0.8), ("M", 0.8), ("Y", 0.8), ("black", 0.5)]) ]

end Config

/-- The exception kinds raised by the engine (numeric payloads of
`InsufficientResourceError` are dropped; no claim depends on them). -/
inductive SchedErr where
  | insufficientResource (printer_id resource : String)
  | noCapablePrinter (types : List String)
  | resourceConflict
  | queueOverflow
  | validation (msg : String)
  deriving DecidableEq, Repr

structure PQueue where
  heap : List Job
  max_length : Nat
  deriving DecidableEq, Repr

def PQueue.empty (max_length : Nat := Config.MAX_QUEUE_LENGTH) : PQueue :=
  ⟨[], max_length⟩

/-- `PriorityQueue.push`: raise `QueueOverflowError` when full, else
build the `PrioritizedJob` and `heappush` it. -/
def PQueue.push (q : PQueue) (job_id : String) (job_data : SuborderReq)
    (priority : Int) (now : Nat) : PQueue × Option SchedErr :=
  if q.max_length ≤ q.heap.length then
    (q, some .queueOverflow)
  else
    ({ q with heap := heappush q.heap ⟨priority, now, job_id, job_data⟩ }, none)

/-- `PriorityQueue.pop`: `heappop` when nonempty, else `None`. -/
def PQueue.pop (q : PQueue) : Option Job × PQueue :=
  if q.heap.isEmpty then (none, q)
  else
    let r := heappop q.heap
    (r.1, { q with heap := r.2 })

def PQueue.size (q : PQueue) : Nat := q.heap.length

def PQueue.is_full (q : PQueue) : Bool := q.max_length ≤ q.heap.length

/-! ### Printers

`printers_data` entries after `PrinterScheduler.__init__` has installed a
`PriorityQueue` on every printer.  Ink levels and speeds are exact
rationals in place of Python floats. -/

structure PrinterInfo where
  supported : List String
  paper_count : Dict Nat
  ink : Dict ℚ
  speed : Option ℚ
  queue : PQueue
  deriving DecidableEq, Repr

/-! ### Validator -/

def pyIsAlnum (s : String) : Bool :=
  s.length > 0 && s.toList.all Char.isAlphanum

/-- `Validator.validate_order` (pass/fail; the message text is unused by
any claim). -/
def validate_order (order : Order) : Bool :=
  !order.isEmpty && order.length ≤ 10 &&
    order.all fun kv =>
      pyIsAlnum kv.1 &&
        kv.2.paper_count.all fun pc => 1 ≤ pc.2 && pc.2 ≤ 10000

/-- `Validator.validate_weights`: total in `[0.99, 1.01]`, each value in
`[0, 1]`. -/
def validate_weights (weights : Dict ℚ) : Bool :=
  (decide ((99 : ℚ)/100 ≤ (weights.map (·.2)).sum) &&
   decide ((weights.map (·.2)).sum ≤ (101 : ℚ)/100)) &&
    weights.all fun kv => decide ((0 : ℚ) ≤ kv.2) && decide (kv.2 ≤ (1 : ℚ))

/-! ### Scorer (`score_printer_for_suborder` and helpers) -/

/-- `_percent_score`: clamp to `[0, 100]` and normalise. -/
def percent_score (pct : ℚ) : ℚ :=
  max 0 (min 100 pct) / 100

/-- `_queue_score` for a `PriorityQueue` (the branch taken for the
scheduler's printers, `qlen = queue.size()`). -/
def queue_score (qlen : Nat) : ℚ :=
  1 / (1 + (qlen : ℚ))

/-- Python `min` over a nonempty list (`dflt` for the guarded empty
case `min(xs) if xs else dflt`). -/
def pyMin (xs : List ℚ) (dflt : ℚ) : ℚ :=
  match xs with
  | [] => dflt
  | x :: rest => rest.foldl min x

/-- The paper loop of `score_printer_for_suborder` over one
requirement's `paper_count`: `None` models the hard-fail early
`return 0.0` when `available < need`, otherwise the collected
`remaining_pct` values. -/
def paperPctsReq (paper : Dict Nat) : Dict Nat → Option (List ℚ)
  | [] => some []
  | (ptype, need) :: rest =>
    let available := paper.lookupD ptype 0
    if available < need then none
    else
      let remaining_pct : ℚ :=
        if 0 < available then ((available : ℚ) - (need : ℚ)) / (available : ℚ) * 100 else 0
      (paperPctsReq paper rest).map (remaining_pct :: ·)

def paperPcts (paper : Dict Nat) : SuborderReq → Option (List ℚ)
  | [] => some []
  | (_, req) :: rest =>
    match paperPctsReq paper req.paper_count with
    | none => none
    | some l1 => (paperPcts paper rest).map (l1 ++ ·)

/-- The ink loop body for one order type: `bw` checks `black`, the four
colour types check `C`, `M`, `Y`; a level `≤ 0` is the hard-fail
`return 0.0`. -/
def inkPctsOne (ink : Dict ℚ) (otype : String) : Option (List ℚ) :=
  let part1 : Option (List ℚ) :=
    if otype = "bw" then
      let bl := ink.lookupD "black" 0
      if bl ≤ 0 then none else some [bl]
    else some []
  match part1 with
  | none => none
  | some l1 =>
    if otype = "color" ∨ otype = "glossy" ∨ otype = "postersize" ∨ otype = "thick" then
      let c := ink.lookupD "C" 0
      let m := ink.lookupD "M" 0
      let y := ink.lookupD "Y" 0
      if c ≤ 0 ∨ m ≤ 0 ∨ y ≤ 0 then none else some (l1 ++ [min c (min m y)])
    else some l1

def inkPcts (ink : Dict ℚ) : List String → Option (List ℚ)
  | [] => some []
  | otype :: rest =>
    match inkPctsOne ink otype with
    | none => none
    | some l1 => (inkPcts ink rest).map (l1 ++ ·)

/-- `score_printer_for_suborder(printer_info, suborder_req, weights)`.
Pure by construction, as in the source. -/
def score_printer_for_suborder (printer_info : PrinterInfo) (suborder_req : SuborderReq)
    (weights : Dict ℚ) : ℚ :=
  match paperPcts printer_info.paper_count suborder_req with
  | none => 0
  | some paper_remaining_pcts =>
    match inkPcts printer_info.ink (suborder_req.map (·.1)) with
    | none => 0
    | some ink_pcts =>
      let paper_score := percent_score (pyMin paper_remaining_pcts 100)
      let ink_score := percent_score (pyMin ink_pcts 100)
      let speed_score :=
        match printer_info.speed with
        | none => (1 : ℚ)/2
        | some sp => percent_score (min sp 100)
      let queue_score_val := queue_score printer_info.queue.size
      let extras_count :=
        (printer_info.supported.dedup.filter
          (fun c => ¬ suborder_req.hasKey c)).length
      let extras_penalty := 1 - (min extras_count 10 : ℚ) / 10
      let w_p := weights.lookupD "paper" (Config.DEFAULT_WEIGHTS.lookupD "paper" 0)
      let w_i := weights.lookupD "ink" (Config.DEFAULT_WEIGHTS.lookupD "ink" 0)
      let w_s := weights.lookupD "speed" (Config.DEFAULT_WEIGHTS.lookupD "speed" 0)
      let w_q := weights.lookupD "queue" (Config.DEFAULT_WEIGHTS.lookupD "queue" 0)
      let w_e := weights.lookupD "extras" (Config.DEFAULT_WEIGHTS.lookupD "extras" 0)
      w_p * paper_score + w_i * ink_score + w_s * speed_score +
        w_q * queue_score_val + w_e * extras_penalty

/-! ### Capability lookup and sub-order generation -/

/-- `PrinterIndex.find_capable_printers`: the intersection of the
per-capability index sets is exactly the set of printers whose
`supported` contains every requested capability.  The Python function
returns that set in unspecified order; we fix the fleet's insertion
order (every later use is order-insensitive: `_valid_supported_combos`
only tests emptiness, and `assign_printer_for_suborder` re-sorts by a
key that is injective on candidates). -/
def find_capable_printers (printers : Dict PrinterInfo) (required : List String) :
    List String :=
  if required.isEmpty then []
  else (printers.filter fun kv => required.all (fun c => c ∈ kv.2.supported)).map (·.1)

/-- `itertools.combinations(l, r)` in its emission order. -/
def combosR : List String → Nat → List (List String)
  | _, 0 => [[]]
  | [], _ + 1 => []
  | x :: xs, r + 1 => (combosR xs r).map (x :: ·) ++ combosR xs (r + 1)

/-- Insertion sort on strings, for `tuple(sorted(s))` dedup keys and
`",".join(sorted(...))` combo keys.  Python compares strings
lexicographically by code point, which is the lexicographic order on
the character lists. -/
def insertSorted (x : String) : List String → List String
  | [] => [x]
  | y :: rest => if x.data ≤ y.data then x :: y :: rest else y :: insertSorted x rest

def sortStrings (l : List String) : List String :=
  l.foldr insertSorted []

def dedupBySortedKey (combos : List (List String)) : List (List String) :=
  (combos.foldl
    (fun (acc : List (List String) × List (List String)) s =>
      if sortStrings s ∈ acc.2 then acc else (acc.1 ++ [s], acc.2 ++ [sortStrings s]))
    ([], [])).1

/-- `_valid_supported_combos`: subsets of the order's types by
descending size that some printer fully supports, deduplicated. -/
def valid_supported_combos (order_types : List String) (printers : Dict PrinterInfo) :
    List (List String) :=
  let rs := (List.range order_types.length).map (order_types.length - ·)
  let combos := rs.foldl
    (fun acc r =>
      acc ++ (combosR order_types r).filter
        (fun combo => !(find_capable_printers printers combo).isEmpty))
    []
  dedupBySortedKey combos

/-- The greedy pick: `best = None, best_overlap = 0`, then for each
combo in order, if its overlap with `remaining` is strictly larger than
`best_overlap`, it becomes the new best; `None` if no overlap is
positive. -/
def greedyPick (combos : List (List String)) (remaining : List String) :
    Option (List String) :=
  (combos.foldl
    (fun (st : Option (List String) × Nat) combo =>
      if st.2 < (combo.filter (· ∈ remaining)).length then
        (some combo, (combo.filter (· ∈ remaining)).length)
      else st)
    (none, 0)).1

/-- The `while remaining` loop of `generate_suborders_from_order`.  Each
round removes at least one element of `remaining`, so fuel
`remaining.length` makes the fuel-exhausted branch unreachable (it
re-raises `NoCapablePrinterError` for definiteness). -/
def greedyCover (combos : List (List String)) :
    Nat → List String → Except SchedErr (List (List String))
  | 0, remaining =>
    if remaining.isEmpty then .ok [] else .error (.noCapablePrinter remaining)
  | fuel + 1, remaining =>
    if remaining.isEmpty then .ok []
    else
      match greedyPick combos remaining with
      | none => .error (.noCapablePrinter remaining)
      | some best =>
        (greedyCover combos fuel (remaining.filter (· ∉ best))).map (best :: ·)

/-- `generate_suborders_from_order(order, printers_data, printer_index)`. -/
def generate_suborders_from_order (order : Order) (printers : Dict PrinterInfo) :
    Except SchedErr (List (List String)) :=
  let order_types := order.keys
  let supported_combos := valid_supported_combos order_types printers
  greedyCover supported_combos order_types.length order_types

/-! ### Assignment (`assign_printer_for_suborder`) -/

/-- The `suborder_req` dict built at the top of
`assign_printer_for_suborder`; a type absent from the order raises
`ValidationError`. -/
def buildSuborderReq : List String → Order → Except SchedErr SuborderReq
  | [], _ => .ok []
  | t :: rest, order =>
    match order.lookup? t with
    | none => .error (.validation ("Order missing requirements for type " ++ t))
    | some r => (buildSuborderReq rest order).map ((t, r) :: ·)

/-- Sort key `(-score, default_priorities.index(name) or 9999, name)`;
without a priority list the key is `(-score, name)`.  Candidate names
are distinct, so the key order is total and `sort(...)[0]` equals the
fold below that keeps the first strictly smaller element. -/
def candBetter (default_priorities : Option (List String)) (a b : ℚ × String) : Bool :=
  if b.1 < a.1 then true
  else if a.1 < b.1 then false
  else
    match default_priorities with
    | none => a.2 < b.2
    | some dp =>
      let ia := (dp.indexOf? a.2).getD 9999
      let ib := (dp.indexOf? b.2).getD 9999
      if ia < ib then true
      else if ib < ia then false
      else a.2 < b.2

def pickBestCandidate (default_priorities : Option (List String)) :
    List (ℚ × String) → Option (ℚ × String)
  | [] => none
  | c :: rest =>
    some (rest.foldl (fun best x => if candBetter default_priorities x best then x else best) c)

/-- The scoring loop: full queues are skipped and recorded, zero scores
are recorded as resource failures, positive scores are kept. -/
def scanCandidates (suborder_req : SuborderReq) (weights : Dict ℚ) :
    List (String × PrinterInfo) → List (ℚ × String) × List String × List String
  | [] => ([], [], [])
  | (pname, pinfo) :: rest =>
    let (scored, resource_failures, queue_full) := scanCandidates suborder_req weights rest
    if pinfo.queue.is_full then (scored, resource_failures, pname :: queue_full)
    else
      let score := score_printer_for_suborder pinfo suborder_req weights
      if 0 < score then ((score, pname) :: scored, resource_failures, queue_full)
      else (scored, pname :: resource_failures, queue_full)

/-- The paper shortage scan that decides between the two
`InsufficientResourceError` shapes (only the scanned printers' paper
levels matter; the message text is dropped). -/
def anyPaperDetail (printers : Dict PrinterInfo) (suborder_req : SuborderReq)
    (resource_failures : List String) : Bool :=
  resource_failures.any fun pname =>
    match printers.lookup? pname with
    | none => false
    | some pinfo =>
      suborder_req.any fun kv =>
        kv.2.paper_count.any fun pc => pinfo.paper_count.lookupD pc.1 0 < pc.2

/-- `assign_printer_for_suborder(suborder_types, order, printers_data,
weights, default_priorities, printer_index)`. -/
def assign_printer_for_suborder (suborder_types : List String) (order : Order)
    (printers : Dict PrinterInfo) (weights : Dict ℚ)
    (default_priorities : Option (List String)) : Except SchedErr (String × ℚ) :=
  match buildSuborderReq suborder_types order with
  | .error e => .error e
  | .ok suborder_req =>
    let capable_ids := find_capable_printers printers suborder_types
    let candidates := capable_ids.filterMap fun pid =>
      (printers.lookup? pid).map (fun info => (pid, info))
    if candidates.isEmpty then .error (.noCapablePrinter suborder_types)
    else
      let (scored, resource_failures, queue_full) := scanCandidates suborder_req weights candidates
      if scored.isEmpty then
        if !queue_full.isEmpty && resource_failures.isEmpty then
          .error .queueOverflow
        else if !resource_failures.isEmpty then
          if anyPaperDetail printers suborder_req resource_failures then
            .error (.insufficientResource "multiple" "various")
          else
            .error (.insufficientResource "multiple" "ink")
        else .error (.noCapablePrinter suborder_types)
      else
        match pickBestCandidate default_priorities scored with
        | none => .error (.noCapablePrinter suborder_types)
        | some best => .ok (best.2, best.1)

/-! ### Resource manager (`ResourceManager`) -/

structure ResourceSnapshot where
  printer_id : String
  version : Nat
  paper_count : Dict Nat
  ink : Dict ℚ
  timestamp : Nat
  deriving DecidableEq, Repr

/-- `ResourceManager.get_snapshot` (`_versions` is a `defaultdict(int)`,
so an unknown printer reads version 0). -/
def get_snapshot (versions : Dict Nat) (printer_id : String) (info : PrinterInfo)
    (now : Nat) : ResourceSnapshot :=
  ⟨printer_id, versions.lookupD printer_id 0, info.paper_count, info.ink, now⟩

/-- The `paper_needed` accumulation of `validate_and_consume`. -/
def paperNeeded (suborder_req : SuborderReq) : Dict Nat :=
  suborder_req.foldl
    (fun acc kv =>
      kv.2.paper_count.foldl
        (fun a pc => a.setKey pc.1 (a.lookupD pc.1 0 + pc.2)) acc)
    []

/-- The `ink_needed` accumulation: per type, `pages` is the sum of its
paper counts and each consumption-table channel gains `pages * rate`. -/
def inkNeeded (suborder_req : SuborderReq) : Dict ℚ :=
  suborder_req.foldl
    (fun acc kv =>
      let pages : Nat := (kv.2.paper_count.map (·.2)).sum
      (Config.INK_CONSUMPTION.lookupD kv.1 []).foldl
        (fun a cr => a.setKey cr.1 (a.lookupD cr.1 0 + (pages : ℚ) * cr.2)) acc)
    []

/-- `ResourceManager.validate_and_consume(printer_id, printer_info,
suborder_req, snapshot)`.  Exceptions are raised before any mutation,
exactly as in the source, so the error cases return the inputs.  The
consumption loops write keys that the validation pass has proved
present (Python would raise `KeyError` on an absent key, which can only
happen for a zero-valued need; see the positivity hypothesis of the C4
theorem). -/
def validate_and_consume (versions : Dict Nat) (printer_id : String)
    (printer_info : PrinterInfo) (suborder_req : SuborderReq)
    (snapshot : ResourceSnapshot) : (Dict Nat × PrinterInfo) × Option SchedErr :=
  if versions.lookupD printer_id 0 ≠ snapshot.version then
    ((versions, printer_info), some .resourceConflict)
  else
    match (paperNeeded suborder_req).find?
        (fun pn => printer_info.paper_count.lookupD pn.1 0 < pn.2) with
    | some pn => ((versions, printer_info), some (.insufficientResource printer_id ("paper:" ++ pn.1)))
    | none =>
      match (inkNeeded suborder_req).find?
          (fun cn => printer_info.ink.lookupD cn.1 0 < cn.2) with
      | some cn => ((versions, printer_info), some (.insufficientResource printer_id ("ink:" ++ cn.1)))
      | none =>
        ((versions.setKey printer_id (versions.lookupD printer_id 0 + 1),
          { printer_info with
              paper_count := (paperNeeded suborder_req).foldl
                (fun acc pn => acc.modifyKey pn.1 (· - pn.2)) printer_info.paper_count,
              ink := (inkNeeded suborder_req).foldl
                (fun acc cn => acc.modifyKey cn.1 (fun v => max 0 (v - cn.2)))
                printer_info.ink }), none)

/-! ### Assignment cache (`SchedulerCache`)

The Python cache key is `md5(json.dumps(order, sort_keys=True) +
json.dumps(printers_snapshot, sort_keys=True))`.  We model key equality
as equality of the recursively key-sorted structures, which is exactly
what the sorted JSON serialisation compares (md5 collisions aside). -/

structure PrinterSnap where
  paper_count : Dict Nat
  ink : Dict ℚ
  queue_size : Nat
  deriving DecidableEq, Repr

structure SchedResult where
  order_id : String
  assignments : List String
  scores : List ℚ
  suborders : List (List String)
  timestamp : Nat
  deriving DecidableEq, Repr

structure CacheEntry where
  value : SchedResult
  timestamp : Nat
  deriving DecidableEq, Repr

abbrev CacheKey := Order × Dict PrinterSnap

def insertPairSorted {α : Type} (kv : String × α) : Dict α → Dict α
  | [] => [kv]
  | kv0 :: rest =>
    if kv.1.data ≤ kv0.1.data then kv :: kv0 :: rest else kv0 :: insertPairSorted kv rest

/-- Key-sort one level of a dict, as `json.dumps(..., sort_keys=True)`
serialises it. -/
def canonDict {α : Type} (d : Dict α) : Dict α :=
  d.foldr insertPairSorted []

def canonOrder (o : Order) : Order :=
  canonDict (o.map fun kv => (kv.1, ⟨canonDict kv.2.paper_count⟩))

def canonSnap (s : Dict PrinterSnap) : Dict PrinterSnap :=
  canonDict (s.map fun kv =>
    (kv.1, ⟨canonDict kv.2.paper_count, canonDict kv.2.ink, kv.2.queue_size⟩))

def cacheKeyEq (a b : CacheKey) : Bool :=
  decide (canonOrder a.1 = canonOrder b.1) && decide (canonSnap a.2 = canonSnap b.2)

/-- `SchedulerCache.get`: a fresh entry is returned, an expired entry is
deleted and a miss reported. -/
def cache_get (cache : List (CacheKey × CacheEntry)) (key : CacheKey) (now : Nat) :
    Option SchedResult × List (CacheKey × CacheEntry) :=
  match cache.find? (fun e => cacheKeyEq e.1 key) with
  | none => (none, cache)
  | some (_, entry) =>
    if now - entry.timestamp < Config.CACHE_TTL then (some entry.value, cache)
    else (none, cache.filter (fun e => !cacheKeyEq e.1 key))

/-- `SchedulerCache.set`. -/
def cache_set (cache : List (CacheKey × CacheEntry)) (key : CacheKey)
    (value : SchedResult) (now : Nat) : List (CacheKey × CacheEntry) :=
  if cache.any (fun e => cacheKeyEq e.1 key) then
    cache.map (fun e => if cacheKeyEq e.1 key then (e.1, ⟨value, now⟩) else e)
  else cache ++ [(key, ⟨value, now⟩)]

/-! ### Scheduler state and core (`PrinterScheduler`) -/

structure SchedState where
  printers : Dict PrinterInfo
  versions : Dict Nat
  weights : Dict ℚ
  cache : List (CacheKey × CacheEntry)
  deriving DecidableEq, Repr

/-- `PrinterScheduler._create_snapshot()`.  In Python the snapshot holds
*references* to each printer's live `paper_count` and `ink` dicts but a
frozen `queue_size` integer; `refresh_aliases` below reproduces what
those references evaluate to at `cache.set` time. -/
def create_snapshot (printers : Dict PrinterInfo) : Dict PrinterSnap :=
  printers.map fun kv => (kv.1, ⟨kv.2.paper_count, kv.2.ink, kv.2.queue.size⟩)

/-- The value the aliased `_create_snapshot` dict serialises to after
`_schedule_order_internal` has mutated the printers: live `paper_count`
and `ink`, the `queue_size` captured before scheduling. -/
def refresh_aliases (frozen : Dict PrinterSnap) (printers : Dict PrinterInfo) :
    Dict PrinterSnap :=
  frozen.map fun kv =>
    match printers.lookup? kv.1 with
    | some info => (kv.1, ⟨info.paper_count, info.ink, kv.2.queue_size⟩)
    | none => kv

/-- One sub-order commit inside `_schedule_order_internal`: take the
snapshot, `validate_and_consume`, and push onto the chosen printer's
queue.  A failed push leaves the consumption in place, exactly as in
the source, where the raised `QueueOverflowError` does not undo the
state mutation. -/
def commit_suborder (s : SchedState) (order : Order) (suborder_types : List String)
    (printer_id : String) (order_id : String) (priority : Int) (now : Nat) :
    SchedState × Option SchedErr :=
  match s.printers.lookup? printer_id with
  | none => (s, some (.validation ("unknown printer " ++ printer_id)))
  | some printer_info =>
    let snapshot := get_snapshot s.versions printer_id printer_info now
    let suborder_req : SuborderReq :=
      suborder_types.map fun t => (t, order.lookupD t ⟨[]⟩)
    match validate_and_consume s.versions printer_id printer_info suborder_req snapshot with
    | ((v2, info2), some e) =>
      ({ s with versions := v2, printers := s.printers.setKey printer_id info2 }, some e)
    | ((v2, info2), none) =>
      match info2.queue.push order_id suborder_req priority now with
      | (q2, r) =>
        ({ s with versions := v2,
                  printers := s.printers.setKey printer_id { info2 with queue := q2 } }, r)

/-- The per-sub-order loop of `_schedule_order_internal`: the first
raised exception aborts the loop, with every earlier commit kept. -/
def schedule_suborders (order : Order) (order_id : String) (priority : Int)
    (dpm : Option (Dict (List String))) (now : Nat) :
    SchedState → List (List String) → SchedState × Except SchedErr (List String × List ℚ)
  | s, [] => (s, .ok ([], []))
  | s, suborder_types :: rest =>
    let combo_key := String.intercalate "," (sortStrings suborder_types)
    let default_priorities := dpm.bind (fun m => m.lookup? combo_key)
    match assign_printer_for_suborder suborder_types order s.printers s.weights
        default_priorities with
    | .error e => (s, .error e)
    | .ok (printer_id, score) =>
      match commit_suborder s order suborder_types printer_id order_id priority now with
      | (s2, some e) => (s2, .error e)
      | (s2, none) =>
        match schedule_suborders order order_id priority dpm now s2 rest with
        | (s3, .ok (as, scs)) => (s3, .ok (printer_id :: as, score :: scs))
        | (s3, .error e) => (s3, .error e)

/-- `PrinterScheduler._schedule_order_internal`. -/
def schedule_order_internal (s : SchedState) (order : Order) (order_id : String)
    (priority : Int) (dpm : Option (Dict (List String))) (now : Nat) :
    SchedState × Except SchedErr SchedResult :=
  match generate_suborders_from_order order s.printers with
  | .error e => (s, .error e)
  | .ok suborders =>
    match schedule_suborders order order_id priority dpm now s suborders with
    | (s2, .error e) => (s2, .error e)
    | (s2, .ok (assignments, scores)) =>
      (s2, .ok ⟨order_id, assignments, scores, suborders, now⟩)

/-- The retry loop of `schedule_order`, with `fuel` counting the
remaining attempts after the current one: only `ResourceConflictError`
is retried, and a successful result is cached under the aliased
snapshot key before being returned. -/
def schedule_retry (order : Order) (order_id : String) (priority : Int)
    (dpm : Option (Dict (List String))) (snap0 : Dict PrinterSnap) (now : Nat) :
    SchedState → Nat → SchedState × Except SchedErr SchedResult
  | s, fuel =>
    match schedule_order_internal s order order_id priority dpm now with
    | (s2, .ok result) =>
      let key : CacheKey := (order, refresh_aliases snap0 s2.printers)
      ({ s2 with cache := cache_set s2.cache key result now }, .ok result)
    | (s2, .error .resourceConflict) =>
      match fuel with
      | 0 => (s2, .error .resourceConflict)
      | f + 1 => schedule_retry order order_id priority dpm snap0 now s2 f
    | (s2, .error e) => (s2, .error e)

/-- `PrinterScheduler.schedule_order(order, order_id, priority,
default_priorities_map, max_retries)`.  The generated order id uses the
logical clock in place of `time.time()*1000`. -/
def schedule_order (s : SchedState) (order : Order) (order_id : Option String)
    (priority : Int) (dpm : Option (Dict (List String))) (now : Nat) :
    SchedState × Except SchedErr SchedResult :=
  if !validate_order order then
    (s, .error (.validation "invalid order"))
  else
    let oid := order_id.getD ("order_" ++ toString now)
    let snap0 := create_snapshot s.printers
    match cache_get s.cache (order, snap0) now with
    | (some cached, cache2) => ({ s with cache := cache2 }, .ok cached)
    | (none, cache2) =>
      schedule_retry order oid priority dpm snap0 now { s with cache := cache2 }
        (Config.MAX_RETRIES - 1)

/-! ### Status, cancellation, manual update -/

/-- `PrinterScheduler._determine_printer_status` — note the source
tests `all(count < 10 ...)` for paper but `any(level < 10 ...)` for
ink. -/
def determine_printer_status (info : PrinterInfo) : String :=
  if info.paper_count.all (fun pc => pc.2 < 10) then "low_paper"
  else if info.ink.any (fun iv => iv.2 < 10) then "low_ink"
  else if Config.MAX_QUEUE_LENGTH ≤ info.queue.size then "queue_full"
  else "ready"

structure PrinterStatus where
  printer_id : String
  supported : List String
  paper_count : Dict Nat
  ink : Dict ℚ
  speed : Option ℚ
  queue_size : Nat
  status : String
  deriving DecidableEq, Repr

/-- `PrinterScheduler.get_printer_status`. -/
def get_printer_status (s : SchedState) (printer_id : String) :
    Except SchedErr PrinterStatus :=
  match s.printers.lookup? printer_id with
  | none => .error (.validation ("Printer " ++ printer_id ++ " not found"))
  | some info =>
    .ok ⟨printer_id, info.supported, info.paper_count, info.ink, info.speed,
         info.queue.size, determine_printer_status info⟩

/-- The queue rewrite done by `cancel_order` on one printer: drop the
matching jobs and re-heapify. -/
def cancel_queue (q : PQueue) (order_id : String) : PQueue :=
  { q with heap := heapify (q.heap.filter (fun job => job.job_id ≠ order_id)) }

/-- One iteration of the `cancel_order` loop over `printers_to_check`:
an unknown printer is skipped, a known one gets its queue rewritten and
sets `cancelled = True`. -/
def cancelStep (order_id : String) (acc : SchedState × Bool) (pid : String) :
    SchedState × Bool :=
  match acc.1.printers.lookup? pid with
  | none => acc
  | some info =>
    ({ acc.1 with printers :=
        acc.1.printers.setKey pid { info with queue := cancel_queue info.queue order_id } },
     true)

/-- `PrinterScheduler.cancel_order(order_id, printer_id)`.  `cancelled`
is set whenever a scanned printer has a queue attribute, whether or not
any job matched — as in the source. -/
def cancel_order (s : SchedState) (order_id : String) (printer_id : Option String) :
    SchedState × Bool :=
  let printers_to_check :=
    match printer_id with
    | some pid => [pid]
    | none => s.printers.keys
  printers_to_check.foldl (cancelStep order_id) (s, false)

/-- `if paper_count: info['paper_count'].update(paper_count)` — skipped
for `None` and for the (falsy) empty dict. -/
def applyPaperUpd (info : PrinterInfo) : Option (Dict Nat) → PrinterInfo
  | some pc =>
    if pc.isEmpty then info
    else { info with paper_count := info.paper_count.updateWith pc }
  | none => info

/-- `if ink: info['ink'].update(ink)`. -/
def applyInkUpd (info : PrinterInfo) : Option (Dict ℚ) → PrinterInfo
  | some ik =>
    if ik.isEmpty then info
    else { info with ink := info.ink.updateWith ik }
  | none => info

/-- `PrinterScheduler.update_printer_resources(printer_id, paper_count,
ink)`: absolute `dict.update` of the supplied keys, version bump, full
cache clear. -/
def update_printer_resources (s : SchedState) (printer_id : String)
    (paper_count : Option (Dict Nat)) (ink : Option (Dict ℚ)) :
    SchedState × Option SchedErr :=
  match s.printers.lookup? printer_id with
  | none => (s, some (.validation ("Printer " ++ printer_id ++ " not found")))
  | some info =>
    ({ s with
        printers := s.printers.setKey printer_id
          (applyInkUpd (applyPaperUpd info paper_count) ink),
        versions := s.versions.setKey printer_id (s.versions.lookupD printer_id 0 + 1),
        cache := [] }, none)

/-! ## Verification: heap order, index arithmetic and the heap invariant -/

/-- Parent index in the array encoding of a binary heap. -/
def parentIdx (j : Nat) : Nat := (j - 1) / 2

theorem parentIdx_lt {j : Nat} (h : 0 < j) : parentIdx j < j :=
  Nat.lt_of_le_of_lt (Nat.div_le_self _ 2) (Nat.pred_lt (Nat.pos_iff_ne_zero.mp h))

theorem parentIdx_left (i : Nat) : parentIdx (2 * i + 1) = i := by
  simp [parentIdx, Nat.mul_add_div]

theorem parentIdx_right (i : Nat) : parentIdx (2 * i + 2) = i := by
  simp only [parentIdx, Nat.add_sub_cancel]
  omega

theorem lt_of_parentIdx_eq {i j : Nat} (h0 : 0 < j) (h : parentIdx j = i) : i < j :=
  h ▸ parentIdx_lt h0

theorem child_left_or_right {j : Nat} (h0 : 0 < j) :
    j = 2 * parentIdx j + 1 ∨ j = 2 * parentIdx j + 2 := by
  unfold parentIdx
  omega

/-- `heap[j]` with the out-of-range default, as used throughout the
heap proofs. -/
def elemAt (l : List Job) (i : Nat) : Job := l.getD i default

theorem elemAt_set_self {l : List Job} {i : Nat} (h : i < l.length) (v : Job) :
    elemAt (l.set i v) i = v := by
  simp [elemAt, List.getD_eq_getElem?_getD, List.getElem?_set, h]

theorem elemAt_set_ne {l : List Job} {i j : Nat} (h : i ≠ j) (v : Job) :
    elemAt (l.set i v) j = elemAt l j := by
  simp [elemAt, List.getD_eq_getElem?_getD, List.getElem?_set, h]

theorem elemAt_append_left {l1 l2 : List Job} {i : Nat} (h : i < l1.length) :
    elemAt (l1 ++ l2) i = elemAt l1 i := by
  simp [elemAt, List.getD_eq_getElem?_getD, List.getElem?_append, h]

theorem elemAt_dropLast {l : List Job} {i : Nat} (h : i < l.length - 1) :
    elemAt l.dropLast i = elemAt l i := by
  have h2 : i < l.length := by omega
  simp [elemAt, List.getD_eq_getElem?_getD, List.dropLast_eq_take, List.getElem?_take, h,
    List.getElem?_eq_getElem h2]

/-- The min-heap invariant of the array encoding: every non-root entry
is at least its parent (comparison on `priority` only, mirroring
`PrioritizedJob.__lt__`). -/
def IsHeap (l : List Job) : Prop :=
  ∀ j, 0 < j → j < l.length → (elemAt l (parentIdx j)).priority ≤ (elemAt l j).priority

theorem isHeap_nil : IsHeap [] := by
  intro j _ hj
  simp at hj

theorem isHeap_singleton (x : Job) : IsHeap [x] := by
  intro j h0 hj
  simp at hj
  omega

/-- In a heap the root is a minimum. -/
theorem isHeap_root_min {l : List Job} (hh : IsHeap l) :
    ∀ j, j < l.length → (elemAt l 0).priority ≤ (elemAt l j).priority := by
  intro j
  induction j using Nat.strong_induction_on with
  | _ j ih =>
    intro hj
    rcases Nat.eq_zero_or_pos j with h0 | h0
    · subst h0; exact le_refl _
    · exact le_trans (ih (parentIdx j) (parentIdx_lt h0) (lt_trans (parentIdx_lt h0) hj))
        (hh j h0 hj)

theorem jobLt_iff {a b : Job} : jobLt a b = true ↔ a.priority < b.priority := by
  simp [jobLt]

/-- Writing `ν` into a hole at `pos` yields a heap, provided every edge
not involving the hole holds, the hole's parent is at most `ν`, and `ν`
is at most the hole's children. -/
theorem placeNewitem_isHeap (ν : Job) (h : List Job) (pos : Nat) (hpos : pos < h.length)
    (Hparent : 0 < pos → (elemAt h (parentIdx pos)).priority ≤ ν.priority)
    (I1 : ∀ j, 0 < j → j < h.length → j ≠ pos →
      (elemAt h (parentIdx j)).priority ≤ (elemAt h j).priority)
    (I2 : ∀ j, 0 < j → j < h.length → parentIdx j = pos →
      ν.priority ≤ (elemAt h j).priority) :
    IsHeap (h.set pos ν) := by
  intro j hj0 hjlen
  rw [List.length_set] at hjlen
  by_cases hjpos : j = pos
  · subst hjpos
    rw [elemAt_set_ne (Nat.ne_of_lt (parentIdx_lt hj0)).symm, elemAt_set_self hpos]
    exact Hparent hj0
  · by_cases hpj : parentIdx j = pos
    · rw [hpj, elemAt_set_self hpos, elemAt_set_ne (fun e => hjpos e.symm)]
      exact I2 j hj0 hjlen hpj
    · rw [elemAt_set_ne (fun e => hpj e.symm), elemAt_set_ne (fun e => hjpos e.symm)]
      exact I1 j hj0 hjlen hjpos

/-- Bubble-up invariant for `_siftdown`: if all edges not entering the
hole at `pos` hold, `ν` is below the hole's children, and the hole's
parent is below the hole's children, then the loop restores the heap. -/
theorem siftdownAux_isHeap (ν : Job) (fuel : Nat) :
    ∀ (h : List Job) (pos : Nat), pos ≤ fuel → pos < h.length →
      (∀ j, 0 < j → j < h.length → j ≠ pos →
        (elemAt h (parentIdx j)).priority ≤ (elemAt h j).priority) →
      (∀ j, 0 < j → j < h.length → parentIdx j = pos →
        ν.priority ≤ (elemAt h j).priority) →
      (0 < pos → ∀ j, 0 < j → j < h.length → parentIdx j = pos →
        (elemAt h (parentIdx pos)).priority ≤ (elemAt h j).priority) →
      IsHeap (siftdownAux ν fuel h 0 pos) := by
  induction fuel with
  | zero =>
    intro h pos hfuel hpos I1 I2 _
    have hpos0 : pos = 0 := Nat.le_zero.mp hfuel
    subst hpos0
    simp only [siftdownAux]
    exact placeNewitem_isHeap ν h 0 hpos (fun hc => absurd hc (lt_irrefl 0)) I1 I2
  | succ fuel ih =>
    intro h pos hfuel hpos I1 I2 I3
    simp only [siftdownAux]
    by_cases h0pos : 0 < pos
    · rw [if_pos h0pos]
      have hppdef : parentIdx pos = (pos - 1) / 2 := rfl
      have hpplt : (pos - 1) / 2 < pos := hppdef ▸ parentIdx_lt h0pos
      by_cases hlt : jobLt ν (h.getD ((pos - 1) / 2) default) = true
      · rw [if_pos hlt]
        have hltP : ν.priority < (elemAt h ((pos - 1) / 2)).priority := jobLt_iff.mp hlt
        apply ih
        · omega
        · rw [List.length_set]; omega
        · -- edges not entering the new hole
          intro j hj0 hjlen hjne
          rw [List.length_set] at hjlen
          by_cases hjpos : j = pos
          · subst hjpos
            rw [hppdef, elemAt_set_ne (Nat.ne_of_lt hpplt).symm, elemAt_set_self hpos]
            exact le_refl _
          · by_cases hpj : parentIdx j = pos
            · rw [hpj, elemAt_set_self hpos, elemAt_set_ne (fun e => hjpos e.symm)]
              exact I3 h0pos j hj0 hjlen hpj
            · rw [elemAt_set_ne (fun e => hpj e.symm), elemAt_set_ne (fun e => hjpos e.symm)]
              exact I1 j hj0 hjlen hjpos
        · -- ν below the new hole's children
          intro j hj0 hjlen hpj
          rw [List.length_set] at hjlen
          by_cases hjpos : j = pos
          · subst hjpos
            rw [elemAt_set_self hpos]
            exact le_of_lt hltP
          · rw [elemAt_set_ne (fun e => hjpos e.symm)]
            refine le_trans (le_of_lt hltP) ?_
            have := I1 j hj0 hjlen hjpos
            rw [hpj] at this
            exact this
        · -- the new hole's parent below the new hole's children
          intro hpp0 j hj0 hjlen hpj
          rw [List.length_set] at hjlen
          have hpppos : parentIdx ((pos - 1) / 2) < pos := lt_trans (parentIdx_lt hpp0) hpplt
          have hppelem :
              elemAt (h.set pos (h.getD ((pos - 1) / 2) default)) (parentIdx ((pos - 1) / 2)) =
                elemAt h (parentIdx ((pos - 1) / 2)) :=
            elemAt_set_ne (Nat.ne_of_lt hpppos).symm _
          have hedge : (elemAt h (parentIdx ((pos - 1) / 2))).priority ≤
              (elemAt h ((pos - 1) / 2)).priority := by
            have := I1 ((pos - 1) / 2) hpp0 (lt_trans hpplt hpos) (Nat.ne_of_lt hpplt)
            exact this
          by_cases hjpos : j = pos
          · subst hjpos
            rw [hppelem, elemAt_set_self hpos]
            exact hedge
          · rw [hppelem, elemAt_set_ne (fun e => hjpos e.symm)]
            refine le_trans hedge ?_
            have := I1 j hj0 hjlen hjpos
            rw [hpj] at this
            exact this
      · rw [if_neg hlt]
        refine placeNewitem_isHeap ν h pos hpos (fun _ => ?_) I1 I2
        have : ¬ ν.priority < (elemAt h (parentIdx pos)).priority := by
          rw [hppdef]
          exact fun hc => hlt (jobLt_iff.mpr hc)
        exact le_of_not_lt this
    · rw [if_neg h0pos]
      have hpos0 : pos = 0 := by omega
      subst hpos0
      exact placeNewitem_isHeap ν h 0 hpos (fun hc => absurd hc (lt_irrefl 0)) I1 I2

theorem elemAt_append_last (l : List Job) (x : Job) : elemAt (l ++ [x]) l.length = x := by
  simp [elemAt, List.getD_eq_getElem?_getD, List.getElem?_append]

/-- `heappush` preserves the heap invariant. -/
theorem isHeap_heappush {l : List Job} (hh : IsHeap l) (x : Job) : IsHeap (heappush l x) := by
  unfold heappush siftdown
  have hν : (l ++ [x]).getD l.length default = x := elemAt_append_last l x
  have hlen : (l ++ [x]).length = l.length + 1 := by simp
  rw [hν]
  apply siftdownAux_isHeap
  · exact le_refl _
  · omega
  · intro j hj0 hjlen hjne
    rw [hlen] at hjlen
    have hjl : j < l.length := by omega
    rw [elemAt_append_left hjl, elemAt_append_left (lt_trans (parentIdx_lt hj0) hjl)]
    exact hh j hj0 hjl
  · intro j hj0 hjlen hpj
    exfalso
    rw [hlen] at hjlen
    rcases child_left_or_right hj0 with e | e <;> rw [hpj] at e <;> omega
  · intro _ j hj0 hjlen hpj
    exfalso
    rw [hlen] at hjlen
    rcases child_left_or_right hj0 with e | e <;> rw [hpj] at e <;> omega

theorem siftupChild_lt_length {h : List Job} {pos : Nat} (hc : 2 * pos + 1 < h.length) :
    siftupChild h pos < h.length := by
  unfold siftupChild
  split_ifs with hcond
  · exact hcond.1
  · exact hc

theorem pos_lt_siftupChild (h : List Job) (pos : Nat) : pos < siftupChild h pos := by
  unfold siftupChild
  split_ifs <;> omega

theorem parentIdx_siftupChild (h : List Job) (pos : Nat) :
    parentIdx (siftupChild h pos) = pos := by
  unfold siftupChild
  split_ifs
  · exact parentIdx_right pos
  · exact parentIdx_left pos

/-- The descended-to child is minimal among `pos`'s children. -/
theorem siftupChild_min {h : List Job} {pos : Nat} (_ : 2 * pos + 1 < h.length) :
    ∀ s, 0 < s → s < h.length → parentIdx s = pos →
      (elemAt h (siftupChild h pos)).priority ≤ (elemAt h s).priority := by
  intro s hs0 hslen hps
  rcases child_left_or_right hs0 with hcase | hcase <;> rw [hps] at hcase <;> subst hcase
  · unfold siftupChild
    split_ifs with hcond
    · exact le_of_not_lt (fun hlt => hcond.2 (jobLt_iff.mpr hlt))
    · exact le_refl _
  · unfold siftupChild
    split_ifs with hcond
    · exact le_refl _
    · have hA : 2 * pos + 2 < h.length := hslen
      have hB : jobLt (h.getD (2 * pos + 1) default) (h.getD (2 * pos + 2) default) = true := by
        by_contra hB
        exact hcond ⟨hA, hB⟩
      exact le_of_lt (jobLt_iff.mp hB)

/-- Descent invariant for `_siftup`: with a hole at `pos` whose
grandparent-to-grandchild edges hold and all other edges intact, the
loop (followed by its final `_siftdown`) restores the heap, whatever
`ν` is. -/
theorem siftupAux_isHeap (ν : Job) (fuel : Nat) :
    ∀ (h : List Job) (pos : Nat), h.length ≤ fuel + pos → pos < h.length →
      (∀ j, 0 < j → j < h.length → j ≠ pos → parentIdx j ≠ pos →
        (elemAt h (parentIdx j)).priority ≤ (elemAt h j).priority) →
      (0 < pos → ∀ j, 0 < j → j < h.length → parentIdx j = pos →
        (elemAt h (parentIdx pos)).priority ≤ (elemAt h j).priority) →
      IsHeap (siftupAux ν fuel h 0 pos) := by
  induction fuel with
  | zero =>
    intro h pos hfuel hpos _ _
    omega
  | succ fuel ih =>
    intro h pos hfuel hpos A B
    simp only [siftupAux]
    by_cases hc : 2 * pos + 1 < h.length
    · rw [if_pos hc]
      have hclt : siftupChild h pos < h.length := siftupChild_lt_length hc
      have hposc : pos < siftupChild h pos := pos_lt_siftupChild h pos
      have hpc : parentIdx (siftupChild h pos) = pos := parentIdx_siftupChild h pos
      apply ih
      · rw [List.length_set]; omega
      · rw [List.length_set]; exact hclt
      · intro j hj0 hjlen hjc hpjc
        rw [List.length_set] at hjlen
        by_cases hjpos : j = pos
        · subst hjpos
          rw [elemAt_set_ne (Nat.ne_of_lt (parentIdx_lt hj0)).symm, elemAt_set_self hpos]
          exact B hj0 (siftupChild h j) (by omega) hclt hpc
        · by_cases hpj : parentIdx j = pos
          · rw [hpj, elemAt_set_self hpos, elemAt_set_ne (fun e => hjpos e.symm)]
            exact siftupChild_min hc j hj0 hjlen hpj
          · rw [elemAt_set_ne (fun e => hpj e.symm), elemAt_set_ne (fun e => hjpos e.symm)]
            exact A j hj0 hjlen hjpos hpj
      · intro _ j hj0 hjlen hpj
        rw [List.length_set] at hjlen
        have hcj : siftupChild h pos < j := lt_of_parentIdx_eq hj0 hpj
        have hjpos : j ≠ pos := by omega
        rw [hpc, elemAt_set_self hpos, elemAt_set_ne (fun e => hjpos e.symm)]
        have hstep := A j hj0 hjlen hjpos (by rw [hpj]; omega)
        rw [hpj] at hstep
        exact hstep
    · rw [if_neg hc]
      apply siftdownAux_isHeap
      · exact le_refl pos
      · rw [List.length_set]; exact hpos
      · intro j hj0 hjlen hjpos
        rw [List.length_set] at hjlen
        by_cases hpj : parentIdx j = pos
        · exfalso
          rcases child_left_or_right hj0 with e | e <;> rw [hpj] at e <;> omega
        · rw [elemAt_set_ne (fun e => hpj e.symm), elemAt_set_ne (fun e => hjpos e.symm)]
          exact A j hj0 hjlen hjpos hpj
      · intro j hj0 hjlen hpj
        exfalso
        rw [List.length_set] at hjlen
        rcases child_left_or_right hj0 with e | e <;> rw [hpj] at e <;> omega
      · intro _ j hj0 hjlen hpj
        exfalso
        rw [List.length_set] at hjlen
        rcases child_left_or_right hj0 with e | e <;> rw [hpj] at e <;> omega

/-- `heappop` preserves the heap invariant. -/
theorem isHeap_heappop {l : List Job} (hh : IsHeap l) : IsHeap (heappop l).2 := by
  match l with
  | [] => exact isHeap_nil
  | x :: rest0 =>
    show IsHeap
      (if (x :: rest0).dropLast.isEmpty then ((some ((x :: rest0).getLastD default), []) : Option Job × List Job)
       else (some ((x :: rest0).dropLast.getD 0 default),
             siftup ((x :: rest0).dropLast.set 0 ((x :: rest0).getLastD default)) 0)).2
    by_cases hre : (x :: rest0).dropLast.isEmpty
    · rw [if_pos hre]
      exact isHeap_nil
    · rw [if_neg hre]
      have hrlen : (x :: rest0).dropLast.length = rest0.length := by simp
      have hr0 : 0 < (x :: rest0).dropLast.length := by
        cases hrd : (x :: rest0).dropLast with
        | nil => rw [hrd] at hre; exact absurd rfl hre
        | cons a as => simp
      unfold siftup
      apply siftupAux_isHeap
      · simp
      · rw [List.length_set]; exact hr0
      · intro j hj0 hjlen hjpos hpjpos
        rw [List.length_set] at hjlen
        have hlfull : j < (x :: rest0).length - 1 := by simp; omega
        have hplt : parentIdx j < j := parentIdx_lt hj0
        rw [elemAt_set_ne (fun e => hpjpos e.symm), elemAt_set_ne (fun e => hjpos e.symm),
          elemAt_dropLast hlfull, elemAt_dropLast (by omega)]
        exact hh j hj0 (by simp; omega)
      · intro h0; exact absurd h0 (lt_irrefl 0)

/-- `heappop` on a nonempty list returns the root. -/
theorem heappop_fst {l : List Job} (hne : l ≠ []) : (heappop l).1 = some (elemAt l 0) := by
  match l with
  | [x] => rfl
  | x :: y :: rest =>
    show (if (x :: y :: rest).dropLast.isEmpty then ((some ((x :: y :: rest).getLastD default), []) : Option Job × List Job)
          else (some ((x :: y :: rest).dropLast.getD 0 default),
                siftup ((x :: y :: rest).dropLast.set 0 ((x :: y :: rest).getLastD default)) 0)).1 =
      some (elemAt (x :: y :: rest) 0)
    have hdc : (x :: y :: rest).dropLast = x :: (y :: rest).dropLast := rfl
    rw [hdc]
    simp [elemAt]

/-! ### Queue reachability and the per-queue claims' machinery -/

theorem length_siftdownAux (ν : Job) (fuel : Nat) :
    ∀ (h : List Job) (sp pos : Nat), (siftdownAux ν fuel h sp pos).length = h.length := by
  induction fuel with
  | zero => intro h sp pos; simp [siftdownAux]
  | succ fuel ih =>
    intro h sp pos
    simp only [siftdownAux]
    split_ifs <;> simp [ih]

theorem length_siftupAux (ν : Job) (fuel : Nat) :
    ∀ (h : List Job) (sp pos : Nat), (siftupAux ν fuel h sp pos).length = h.length := by
  induction fuel with
  | zero => intro h sp pos; simp [siftupAux, length_siftdownAux]
  | succ fuel ih =>
    intro h sp pos
    simp only [siftupAux]
    split_ifs <;> simp [ih, length_siftdownAux]

theorem length_heappush (l : List Job) (x : Job) : (heappush l x).length = l.length + 1 := by
  unfold heappush siftdown
  rw [length_siftdownAux]
  simp

theorem length_heappop (l : List Job) : (heappop l).2.length = l.length - 1 := by
  match l with
  | [] => rfl
  | x :: rest0 =>
    show (if (x :: rest0).dropLast.isEmpty then ((some ((x :: rest0).getLastD default), []) : Option Job × List Job)
          else (some ((x :: rest0).dropLast.getD 0 default),
                siftup ((x :: rest0).dropLast.set 0 ((x :: rest0).getLastD default)) 0)).2.length =
      (x :: rest0).length - 1
    by_cases hre : (x :: rest0).dropLast.isEmpty
    · rw [if_pos hre]
      rw [List.isEmpty_iff] at hre
      have h0 : rest0.length = 0 := by
        have := congrArg List.length hre
        simpa using this
      simp [h0]
    · rw [if_neg hre]
      unfold siftup
      simp [length_siftupAux]

theorem length_heapifyAux (l : List Job) :
    ∀ i, (heapifyAux l i).length = l.length := by
  intro i
  induction i generalizing l with
  | zero => rfl
  | succ i ih => simp only [heapifyAux]; rw [ih, ]; unfold siftup; rw [length_siftupAux]

theorem length_heapify (l : List Job) : (heapify l).length = l.length :=
  length_heapifyAux l _

/-! ### Heapify correctness

`heapq.heapify` runs `_siftup(x, i)` for `i = len // 2 - 1 .. 0`; each
call heapifies the subtree rooted at `i`, given heapified subtrees
strictly below `i`.  `InSub s j` says index `j` lies in the subtree
rooted at `s` of the array encoding. -/

inductive InSub (s : Nat) : Nat → Prop where
  | base : InSub s s
  | step {j : Nat} (h0 : 0 < j) (h : InSub s (parentIdx j)) : InSub s j

theorem InSub.le {s j : Nat} (h : InSub s j) : s ≤ j := by
  induction h with
  | base => exact le_refl s
  | step h0 _ ih => exact le_trans ih (le_of_lt (parentIdx_lt h0))

theorem InSub.parent {s j : Nat} (h : InSub s j) (hne : j ≠ s) : InSub s (parentIdx j) := by
  cases h with
  | base => exact absurd rfl hne
  | step h0 h => exact h

/-- All heap edges whose parent lies in the subtree rooted at `s`. -/
def SubEdges (s : Nat) (l : List Job) : Prop :=
  ∀ j, 0 < j → j < l.length → InSub s (parentIdx j) →
    (elemAt l (parentIdx j)).priority ≤ (elemAt l j).priority

/-- Subtree-relative version of `placeNewitem_isHeap`: writing `ν` into
the hole restores every edge whose parent is in the subtree of `s`. -/
theorem placeNewitem_sub (s : Nat) (ν : Job) (h : List Job) (pos : Nat)
    (hpos : pos < h.length) (hins : InSub s pos)
    (Hparent : pos ≠ s → (elemAt h (parentIdx pos)).priority ≤ ν.priority)
    (I1 : ∀ j, 0 < j → j < h.length → j ≠ pos → InSub s (parentIdx j) →
      (elemAt h (parentIdx j)).priority ≤ (elemAt h j).priority)
    (I2 : ∀ j, 0 < j → j < h.length → parentIdx j = pos →
      ν.priority ≤ (elemAt h j).priority) :
    SubEdges s (h.set pos ν) := by
  intro j hj0 hjlen hinsp
  rw [List.length_set] at hjlen
  by_cases hjpos : j = pos
  · rw [hjpos] at hj0 hinsp ⊢
    have hne : pos ≠ s := by
      intro he
      have h1 := InSub.le hinsp
      have h2 := parentIdx_lt hj0
      omega
    rw [elemAt_set_ne (Nat.ne_of_lt (parentIdx_lt hj0)).symm, elemAt_set_self hpos]
    exact Hparent hne
  · by_cases hpj : parentIdx j = pos
    · rw [hpj, elemAt_set_self hpos, elemAt_set_ne (fun e => hjpos e.symm)]
      exact I2 j hj0 hjlen hpj
    · rw [elemAt_set_ne (fun e => hpj e.symm), elemAt_set_ne (fun e => hjpos e.symm)]
      exact I1 j hj0 hjlen hjpos hinsp

/-- Subtree-relative version of the `_siftdown` bubble-up invariant,
for a start position `s` that need not be the root: the loop touches
only indices in the subtree of `s` and restores every edge whose
parent is in that subtree. -/
theorem siftdownAux_sub (s : Nat) (ν : Job) (fuel : Nat) :
    ∀ (h : List Job) (pos : Nat), pos ≤ fuel + s → pos < h.length → InSub s pos →
      (∀ j, 0 < j → j < h.length → j ≠ pos → InSub s (parentIdx j) →
        (elemAt h (parentIdx j)).priority ≤ (elemAt h j).priority) →
      (∀ j, 0 < j → j < h.length → parentIdx j = pos →
        ν.priority ≤ (elemAt h j).priority) →
      (pos ≠ s → ∀ j, 0 < j → j < h.length → parentIdx j = pos →
        (elemAt h (parentIdx pos)).priority ≤ (elemAt h j).priority) →
      (∀ j, j < h.length → ¬ InSub s j →
        elemAt (siftdownAux ν fuel h s pos) j = elemAt h j) ∧
      SubEdges s (siftdownAux ν fuel h s pos) := by
  induction fuel with
  | zero =>
    intro h pos hfuel hpos hins I1 I2 _
    have hps : pos = s := le_antisymm (by omega) (InSub.le hins)
    simp only [siftdownAux]
    refine ⟨?_, placeNewitem_sub s ν h pos hpos hins (fun hne => absurd hps hne) I1 I2⟩
    intro j hjlen hnin
    exact elemAt_set_ne (show pos ≠ j from fun e => hnin (e ▸ hins)) ν
  | succ fuel ih =>
    intro h pos hfuel hpos hins I1 I2 I3
    simp only [siftdownAux]
    by_cases hspos : s < pos
    · rw [if_pos hspos]
      have hpos0 : 0 < pos := lt_of_le_of_lt (Nat.zero_le s) hspos
      have hppdef : parentIdx pos = (pos - 1) / 2 := rfl
      have hpplt : (pos - 1) / 2 < pos := hppdef ▸ parentIdx_lt hpos0
      have hnes : pos ≠ s := Nat.ne_of_gt hspos
      have hinsp : InSub s ((pos - 1) / 2) := hppdef ▸ InSub.parent hins hnes
      by_cases hlt : jobLt ν (h.getD ((pos - 1) / 2) default) = true
      · rw [if_pos hlt]
        have hltP : ν.priority < (elemAt h ((pos - 1) / 2)).priority := jobLt_iff.mp hlt
        set h2 := h.set pos (h.getD ((pos - 1) / 2) default) with hh2
        have hlen2 : h2.length = h.length := by rw [hh2, List.length_set]
        have I1n : ∀ j, 0 < j → j < h2.length → j ≠ (pos - 1) / 2 → InSub s (parentIdx j) →
            (elemAt h2 (parentIdx j)).priority ≤ (elemAt h2 j).priority := by
          intro j hj0 hjlen hjne hjin
          rw [hlen2] at hjlen
          rw [hh2]
          by_cases hjpos : j = pos
          · rw [hjpos] at hj0 hjin ⊢
            rw [hppdef, elemAt_set_ne (Nat.ne_of_lt hpplt).symm, elemAt_set_self hpos]
            exact le_refl _
          · by_cases hpj : parentIdx j = pos
            · rw [hpj, elemAt_set_self hpos, elemAt_set_ne (fun e => hjpos e.symm)]
              exact I3 hnes j hj0 hjlen hpj
            · rw [elemAt_set_ne (fun e => hpj e.symm), elemAt_set_ne (fun e => hjpos e.symm)]
              exact I1 j hj0 hjlen hjpos hjin
        have I2n : ∀ j, 0 < j → j < h2.length → parentIdx j = (pos - 1) / 2 →
            ν.priority ≤ (elemAt h2 j).priority := by
          intro j hj0 hjlen hpj
          rw [hlen2] at hjlen
          rw [hh2]
          by_cases hjpos : j = pos
          · rw [hjpos] at hj0 hpj ⊢
            rw [elemAt_set_self hpos]
            exact le_of_lt hltP
          · rw [elemAt_set_ne (fun e => hjpos e.symm)]
            refine le_trans (le_of_lt hltP) ?_
            have hstep := I1 j hj0 hjlen hjpos (by rw [hpj]; exact hinsp)
            rw [hpj] at hstep
            exact hstep
        have I3n : (pos - 1) / 2 ≠ s → ∀ j, 0 < j → j < h2.length →
            parentIdx j = (pos - 1) / 2 →
            (elemAt h2 (parentIdx ((pos - 1) / 2))).priority ≤ (elemAt h2 j).priority := by
          intro hppnes j hj0 hjlen hpj
          rw [hlen2] at hjlen
          rw [hh2]
          have hle2 := InSub.le hinsp
          have hpp0 : 0 < (pos - 1) / 2 := by omega
          have hpppos : parentIdx ((pos - 1) / 2) < pos := lt_trans (parentIdx_lt hpp0) hpplt
          have hppelem :
              elemAt (h.set pos (h.getD ((pos - 1) / 2) default)) (parentIdx ((pos - 1) / 2)) =
                elemAt h (parentIdx ((pos - 1) / 2)) :=
            elemAt_set_ne (Nat.ne_of_lt hpppos).symm _
          have hedge : (elemAt h (parentIdx ((pos - 1) / 2))).priority ≤
              (elemAt h ((pos - 1) / 2)).priority :=
            I1 ((pos - 1) / 2) hpp0 (lt_trans hpplt hpos) (Nat.ne_of_lt hpplt)
              (InSub.parent hinsp hppnes)
          by_cases hjpos : j = pos
          · rw [hjpos] at hj0 hpj ⊢
            rw [hppelem, elemAt_set_self hpos]
            exact hedge
          · rw [hppelem, elemAt_set_ne (fun e => hjpos e.symm)]
            refine le_trans hedge ?_
            have hstep := I1 j hj0 hjlen hjpos (by rw [hpj]; exact hinsp)
            rw [hpj] at hstep
            exact hstep
        obtain ⟨hu, he⟩ := ih h2 ((pos - 1) / 2) (by omega) (by rw [hlen2]; omega)
          hinsp I1n I2n I3n
        refine ⟨?_, he⟩
        intro j hjlen hnin
        rw [hu j (by rw [hlen2]; exact hjlen) hnin, hh2]
        exact elemAt_set_ne (show pos ≠ j from fun e => hnin (e ▸ hins)) _
      · rw [if_neg hlt]
        constructor
        · intro j hjlen hnin
          exact elemAt_set_ne (show pos ≠ j from fun e => hnin (e ▸ hins)) ν
        · refine placeNewitem_sub s ν h pos hpos hins (fun _ => ?_) I1 I2
          have hnltP : ¬ ν.priority < (elemAt h (parentIdx pos)).priority := by
            rw [hppdef]
            exact fun hcon => hlt (jobLt_iff.mpr hcon)
          exact le_of_not_lt hnltP
    · rw [if_neg hspos]
      have hps : pos = s := le_antisymm (le_of_not_lt hspos) (InSub.le hins)
      constructor
      · intro j hjlen hnin
        exact elemAt_set_ne (show pos ≠ j from fun e => hnin (e ▸ hins)) ν
      · exact placeNewitem_sub s ν h pos hpos hins (fun hne => absurd hps hne) I1 I2

/-- Subtree-relative version of the `_siftup` descent invariant: with
hole at `pos` inside the subtree of `s`, every edge of that subtree
not touching the hole intact, and the hole's parent below the hole's
children, the descent (plus its final bubble-up, which stops at `s`)
touches only the subtree of `s` and heapifies it. -/
theorem siftupAux_sub (s : Nat) (ν : Job) (fuel : Nat) :
    ∀ (h : List Job) (pos : Nat), h.length ≤ fuel + pos → pos < h.length → InSub s pos →
      (∀ j, 0 < j → j < h.length → j ≠ pos → parentIdx j ≠ pos → InSub s (parentIdx j) →
        (elemAt h (parentIdx j)).priority ≤ (elemAt h j).priority) →
      (pos ≠ s → ∀ j, 0 < j → j < h.length → parentIdx j = pos →
        (elemAt h (parentIdx pos)).priority ≤ (elemAt h j).priority) →
      (∀ j, j < h.length → ¬ InSub s j →
        elemAt (siftupAux ν fuel h s pos) j = elemAt h j) ∧
      SubEdges s (siftupAux ν fuel h s pos) := by
  induction fuel with
  | zero =>
    intro h pos hfuel hpos _ _ _
    omega
  | succ fuel ih =>
    intro h pos hfuel hpos hins A B
    simp only [siftupAux]
    by_cases hc : 2 * pos + 1 < h.length
    · rw [if_pos hc]
      have hclt : siftupChild h pos < h.length := siftupChild_lt_length hc
      have hposc : pos < siftupChild h pos := pos_lt_siftupChild h pos
      have hpc : parentIdx (siftupChild h pos) = pos := parentIdx_siftupChild h pos
      have hinsc : InSub s (siftupChild h pos) := by
        refine InSub.step (by omega) ?_
        rw [hpc]
        exact hins
      set h2 := h.set pos (h.getD (siftupChild h pos) default) with hh2
      have hlen2 : h2.length = h.length := by rw [hh2, List.length_set]
      have An : ∀ j, 0 < j → j < h2.length → j ≠ siftupChild h pos →
          parentIdx j ≠ siftupChild h pos → InSub s (parentIdx j) →
          (elemAt h2 (parentIdx j)).priority ≤ (elemAt h2 j).priority := by
        intro j hj0 hjlen hjc hpjc hjin
        rw [hlen2] at hjlen
        rw [hh2]
        by_cases hjpos : j = pos
        · rw [hjpos] at hj0 hjin ⊢
          rw [elemAt_set_ne (Nat.ne_of_lt (parentIdx_lt hj0)).symm, elemAt_set_self hpos]
          have hnes : pos ≠ s := by
            intro he2
            have h1 := InSub.le hjin
            have h2 := parentIdx_lt hj0
            omega
          exact B hnes (siftupChild h pos) (by omega) hclt hpc
        · by_cases hpj : parentIdx j = pos
          · rw [hpj, elemAt_set_self hpos, elemAt_set_ne (fun e => hjpos e.symm)]
            exact siftupChild_min hc j hj0 hjlen hpj
          · rw [elemAt_set_ne (fun e => hpj e.symm), elemAt_set_ne (fun e => hjpos e.symm)]
            exact A j hj0 hjlen hjpos hpj hjin
      have Bn : siftupChild h pos ≠ s → ∀ j, 0 < j → j < h2.length →
          parentIdx j = siftupChild h pos →
          (elemAt h2 (parentIdx (siftupChild h pos))).priority ≤ (elemAt h2 j).priority := by
        intro _ j hj0 hjlen hpj
        rw [hlen2] at hjlen
        rw [hh2]
        have hcj : siftupChild h pos < j := lt_of_parentIdx_eq hj0 hpj
        have hjpos : j ≠ pos := by omega
        rw [hpc, elemAt_set_self hpos, elemAt_set_ne (fun e => hjpos e.symm)]
        have hstep := A j hj0 hjlen hjpos (by rw [hpj]; omega) (by rw [hpj]; exact hinsc)
        rw [hpj] at hstep
        exact hstep
      obtain ⟨hu, he⟩ := ih h2 (siftupChild h pos) (by rw [hlen2]; omega)
        (by rw [hlen2]; exact hclt) hinsc An Bn
      refine ⟨?_, he⟩
      intro j hjlen hnin
      rw [hu j (by rw [hlen2]; exact hjlen) hnin, hh2]
      exact elemAt_set_ne (show pos ≠ j from fun e => hnin (e ▸ hins)) _
    · rw [if_neg hc]
      set h3 := h.set pos ν with hh3
      have hlen3 : h3.length = h.length := by rw [hh3, List.length_set]
      have I1n : ∀ j, 0 < j → j < h3.length → j ≠ pos → InSub s (parentIdx j) →
          (elemAt h3 (parentIdx j)).priority ≤ (elemAt h3 j).priority := by
        intro j hj0 hjlen hjpos hjin
        rw [hlen3] at hjlen
        rw [hh3]
        by_cases hpj : parentIdx j = pos
        · exfalso
          rcases child_left_or_right hj0 with e | e <;> rw [hpj] at e <;> omega
        · rw [elemAt_set_ne (fun e => hpj e.symm), elemAt_set_ne (fun e => hjpos e.symm)]
          exact A j hj0 hjlen hjpos hpj hjin
      have I2n : ∀ j, 0 < j → j < h3.length → parentIdx j = pos →
          ν.priority ≤ (elemAt h3 j).priority := by
        intro j hj0 hjlen hpj
        exfalso
        rw [hlen3] at hjlen
        rcases child_left_or_right hj0 with e | e <;> rw [hpj] at e <;> omega
      have I3n : pos ≠ s → ∀ j, 0 < j → j < h3.length → parentIdx j = pos →
          (elemAt h3 (parentIdx pos)).priority ≤ (elemAt h3 j).priority := by
        intro _ j hj0 hjlen hpj
        exfalso
        rw [hlen3] at hjlen
        rcases child_left_or_right hj0 with e | e <;> rw [hpj] at e <;> omega
      obtain ⟨hu, he⟩ := siftdownAux_sub s ν pos h3 pos
        (Nat.le_add_right pos s) (by rw [hlen3]; exact hpos) hins I1n I2n I3n
      refine ⟨?_, he⟩
      intro j hjlen hnin
      rw [hu j (by rw [hlen3]; exact hjlen) hnin, hh3]
      exact elemAt_set_ne (show pos ≠ j from fun e => hnin (e ▸ hins)) ν

theorem length_siftup (l : List Job) (pos : Nat) : (siftup l pos).length = l.length := by
  unfold siftup
  rw [length_siftupAux]

/-- All heap edges whose parent index is at least `i` — the invariant
of the `heapify` loop. -/
def HeapBelow (i : Nat) (l : List Job) : Prop :=
  ∀ j, 0 < j → j < l.length → i ≤ parentIdx j →
    (elemAt l (parentIdx j)).priority ≤ (elemAt l j).priority

/-- One `heapify` iteration: `_siftup(x, i)` extends the edge property
from parents at least `i + 1` to parents at least `i`. -/
theorem heapify_step {l : List Job} {i : Nat} (hi : i < l.length)
    (hb : HeapBelow (i + 1) l) : HeapBelow i (siftup l i) := by
  have hA : ∀ j, 0 < j → j < l.length → j ≠ i → parentIdx j ≠ i → InSub i (parentIdx j) →
      (elemAt l (parentIdx j)).priority ≤ (elemAt l j).priority := by
    intro j hj0 hjlen _ hpne hpin
    have hle := InSub.le hpin
    exact hb j hj0 hjlen (by omega)
  have hB : i ≠ i → ∀ j, 0 < j → j < l.length → parentIdx j = i →
      (elemAt l (parentIdx i)).priority ≤ (elemAt l j).priority :=
    fun hne => absurd rfl hne
  obtain ⟨hu, he⟩ := siftupAux_sub i (l.getD i default) l.length l i
    (Nat.le_add_right _ _) hi InSub.base hA hB
  have hsu : siftup l i = siftupAux (l.getD i default) l.length l i i := rfl
  rw [hsu]
  intro j hj0 hjlen hij
  rw [length_siftupAux] at hjlen
  have hplt := parentIdx_lt hj0
  by_cases hin : InSub i (parentIdx j)
  · exact he j hj0 (by rw [length_siftupAux]; exact hjlen) hin
  · have hpne : parentIdx j ≠ i := fun e => hin (by rw [e]; exact InSub.base)
    have hnj : ¬ InSub i j := by
      intro hj
      have hjne : j ≠ i := by omega
      exact hin (InSub.parent hj hjne)
    have hedge := hb j hj0 hjlen (by omega)
    rw [hu j hjlen hnj, hu (parentIdx j) (by omega) hin]
    exact hedge

theorem isHeap_heapifyAux : ∀ (i : Nat) (l : List Job), i ≤ l.length → HeapBelow i l →
    IsHeap (heapifyAux l i) := by
  intro i
  induction i with
  | zero =>
    intro l _ hb j hj0 hjlen
    exact hb j hj0 hjlen (Nat.zero_le _)
  | succ i ih =>
    intro l hle hb
    simp only [heapifyAux]
    apply ih
    · rw [length_siftup]
      omega
    · exact heapify_step (by omega) hb

/-- `heapq.heapify` produces a heap from an arbitrary list. -/
theorem isHeap_heapify (l : List Job) : IsHeap (heapify l) := by
  unfold heapify
  apply isHeap_heapifyAux
  · exact Nat.div_le_self _ 2
  · intro j hj0 hjlen hpj
    exfalso
    simp only [parentIdx] at hpj
    omega

/-- Queues reachable from an empty queue by the engine's three queue
operations: `push`, `pop`, and the cancellation rewrite
(`filter` + `heapify`). -/
inductive ReachableQC : PQueue → Prop where
  | empty (max_length : Nat) : ReachableQC ⟨[], max_length⟩
  | push {q : PQueue} (job_id : String) (job_data : SuborderReq) (priority : Int)
      (now : Nat) : ReachableQC q → ReachableQC (q.push job_id job_data priority now).1
  | pop {q : PQueue} : ReachableQC q → ReachableQC q.pop.2
  | cancel {q : PQueue} (order_id : String) : ReachableQC q → ReachableQC (cancel_queue q order_id)

theorem reachableQC_length_le {q : PQueue} (h : ReachableQC q) :
    q.heap.length ≤ q.max_length := by
  induction h with
  | empty _ => simp
  | push job_id job_data priority now hr ih =>
    unfold PQueue.push
    split_ifs with hfull
    · exact ih
    · simp only [length_heappush]
      omega
  | pop hr ih =>
    unfold PQueue.pop
    split_ifs with he
    · exact ih
    · simp only [length_heappop]
      omega
  | cancel order_id hr ih =>
    unfold cancel_queue
    simp only [length_heapify]
    exact le_trans (List.length_filter_le _ _) ih

/-- Every queue the engine can produce satisfies the heap invariant:
`push`/`pop` preserve it and the cancellation rewrite restores it via
`heapify`. -/
theorem reachableQC_isHeap {q : PQueue} (h : ReachableQC q) : IsHeap q.heap := by
  induction h with
  | empty _ => exact isHeap_nil
  | push job_id job_data priority now _ ih =>
    unfold PQueue.push
    split_ifs
    · exact ih
    · exact isHeap_heappush ih _
  | pop _ ih =>
    unfold PQueue.pop
    split_ifs
    · exact ih
    · exact isHeap_heappop ih
  | cancel order_id _ ih => exact isHeap_heapify _

/-- In a heap-invariant queue, `pop` returns a job of minimal priority
value. -/
theorem pqueue_pop_min {q : PQueue} (hh : IsHeap q.heap) {j : Job}
    (hpop : q.pop.1 = some j) : ∀ x ∈ q.heap, j.priority ≤ x.priority := by
  unfold PQueue.pop at hpop
  by_cases he : q.heap.isEmpty
  · rw [if_pos he] at hpop
    cases hpop
  · rw [if_neg he] at hpop
    have hne : q.heap ≠ [] := by
      intro e
      rw [e] at he
      exact he rfl
    have hj2 : elemAt q.heap 0 = j := by
      rw [heappop_fst hne] at hpop
      exact Option.some.inj hpop
    intro x hx
    obtain ⟨i, hi, hxi⟩ := List.mem_iff_getElem.mp hx
    have hex : elemAt q.heap i = x := by
      rw [elemAt, List.getD_eq_getElem?_getD, List.getElem?_eq_getElem hi]
      exact hxi
    rw [← hj2, ← hex]
    exact isHeap_root_min hh i hi

/-- C6 (amended): for every per-printer queue — any queue reachable
from empty by the engine's operations `push`, `pop`, and the
cancellation rewrite (`filter` + `heapify`) — `pop` returns a job
whose priority value is minimal among the queued jobs: strict
ascending priority order.  The FIFO tie-break the claim also asserts
fails (`c6_counterexample`): `PrioritizedJob` compares by `priority`
alone (`timestamp` is `compare=False`) and the heap is not stable. -/
theorem c6_pop_min_priority {q : PQueue} (hq : ReachableQC q) {j : Job}
    (hpop : q.pop.1 = some j) : ∀ x ∈ q.heap, j.priority ≤ x.priority :=
  pqueue_pop_min (reachableQC_isHeap hq) hpop

def c6qA : PQueue :=
  (((PQueue.empty Config.MAX_QUEUE_LENGTH).push "a" [] 5 0).1.push "b" [] 5 1).1

def c6qB : PQueue := (c6qA.push "c" [] 1 2).1

/-- C6 counterexample: jobs `a` (priority 5, enqueued at 0) and `b`
(priority 5, enqueued at 1) are pushed in that order, then `c`
(priority 1).  The first pop returns `c`; the second pop returns `b`
although `a` has equal priority and the earlier enqueue time and is
still queued — FIFO within a priority is violated. -/
theorem c6_counterexample :
    c6qB.pop.1 = some ⟨1, 2, "c", []⟩ ∧
    c6qB.pop.2.pop.1 = some ⟨5, 1, "b", []⟩ ∧
    (⟨5, 0, "a", []⟩ : Job) ∈ c6qB.pop.2.pop.2.heap ∧
    (⟨5, 0, "a", []⟩ : Job).priority = (⟨5, 1, "b", []⟩ : Job).priority ∧
    (⟨5, 0, "a", []⟩ : Job).timestamp < (⟨5, 1, "b", []⟩ : Job).timestamp := by
  decide

/-- C6 witness: the theorem applied to a concrete queue reached by
three pushes, a pop, and a cancellation rewrite (for an absent order
id, so the heap `[b, a]` is re-heapified to `[a, b]`); its pop returns
`a`, of minimal priority. -/
theorem c6_witness :
    (⟨5, 0, "a", []⟩ : Job).priority ≤ (⟨5, 1, "b", []⟩ : Job).priority :=
  c6_pop_min_priority
    (ReachableQC.cancel "z" (ReachableQC.pop (ReachableQC.push "c" [] 1 2
      (ReachableQC.push "b" [] 5 1 (ReachableQC.push "a" [] 5 0
        (ReachableQC.empty Config.MAX_QUEUE_LENGTH))))))
    (by decide) ⟨5, 1, "b", []⟩ (by decide)

/-- C9 (confirmed): every queue reachable from empty by pushes, pops
and cancellations keeps `length ≤ max_length`; `push` raises
`QueueOverflow` exactly when the queue already holds `max_length` jobs,
leaving the queue unchanged; with the default bound
`Config.MAX_QUEUE_LENGTH`, length never exceeds 10. -/
theorem c9_queue_bound {q : PQueue} (hq : ReachableQC q) :
    q.heap.length ≤ q.max_length ∧
    (∀ job_id job_data priority now,
      ((q.push job_id job_data priority now).2 = some SchedErr.queueOverflow ↔
        q.heap.length = q.max_length) ∧
      ((q.push job_id job_data priority now).2 = some SchedErr.queueOverflow →
        (q.push job_id job_data priority now).1 = q)) ∧
    (q.max_length = Config.MAX_QUEUE_LENGTH → q.heap.length ≤ 10) := by
  have hle := reachableQC_length_le hq
  refine ⟨hle, ?_, ?_⟩
  · intro job_id job_data priority now
    refine ⟨⟨?_, ?_⟩, ?_⟩
    · intro hof
      unfold PQueue.push at hof
      by_cases hfull : q.max_length ≤ q.heap.length
      · omega
      · rw [if_neg hfull] at hof
        cases hof
    · intro heq
      unfold PQueue.push
      rw [if_pos (by omega)]
    · intro hof
      unfold PQueue.push at hof ⊢
      by_cases hfull : q.max_length ≤ q.heap.length
      · rw [if_pos hfull]
      · rw [if_neg hfull] at hof
        cases hof
  · intro hmax
    rw [hmax] at hle
    exact hle

def c9q : PQueue := ((PQueue.empty 1).push "a" [] 5 0).1

/-- C9 witness: a queue of capacity 1 holding one job is at its bound
and the next push fails with `QueueOverflow`. -/
theorem c9_witness :
    c9q.heap.length ≤ c9q.max_length ∧
    (c9q.push "b" [] 5 1).2 = some SchedErr.queueOverflow := by
  have h := c9_queue_bound (ReachableQC.push "a" [] 5 0 (ReachableQC.empty 1))
  exact ⟨h.1, ((h.2.1 "b" [] 5 1).1).mpr (by decide)⟩

/-! ### Dictionary lemmas -/

theorem Dict.lookup?_setKey_self {α : Type} (d : Dict α) (k : String) (v : α) :
    (d.setKey k v).lookup? k = some v := by
  induction d with
  | nil => simp [Dict.setKey, Dict.lookup?]
  | cons kv rest ih =>
    obtain ⟨k0, v0⟩ := kv
    by_cases h : k0 = k
    · simp [Dict.setKey, h, Dict.lookup?]
    · simp [Dict.setKey, h, Dict.lookup?, ih]

theorem Dict.lookup?_setKey_ne {α : Type} (d : Dict α) {k k2 : String} (h : k ≠ k2) (v : α) :
    (d.setKey k v).lookup? k2 = d.lookup? k2 := by
  induction d with
  | nil => simp [Dict.setKey, Dict.lookup?, h]
  | cons kv rest ih =>
    obtain ⟨k0, v0⟩ := kv
    by_cases h0 : k0 = k
    · subst h0
      simp [Dict.setKey, Dict.lookup?, h]
    · simp only [Dict.setKey, if_neg h0, Dict.lookup?]
      by_cases h2 : k0 = k2 <;> simp [h2, ih]

theorem Dict.lookupD_setKey_self {α : Type} (d : Dict α) (k : String) (v dflt : α) :
    (d.setKey k v).lookupD k dflt = v := by
  simp [Dict.lookupD, Dict.lookup?_setKey_self]

theorem Dict.mem_of_lookup?_eq_some {α : Type} {d : Dict α} {k : String} {v : α}
    (h : d.lookup? k = some v) : (k, v) ∈ d := by
  induction d with
  | nil => simp [Dict.lookup?] at h
  | cons kv rest ih =>
    obtain ⟨k0, v0⟩ := kv
    by_cases h0 : k0 = k
    · subst h0
      simp [Dict.lookup?] at h
      simp [h]
    · simp only [Dict.lookup?, if_neg h0] at h
      exact List.mem_cons_of_mem _ (ih h)

theorem Dict.keys_cons {α : Type} (kv : String × α) (d : Dict α) :
    Dict.keys (kv :: d) = kv.1 :: Dict.keys d := rfl

theorem Dict.lookup?_eq_none_of_not_mem_keys {α : Type} {d : Dict α} {k : String}
    (h : k ∉ Dict.keys d) : d.lookup? k = none := by
  induction d with
  | nil => rfl
  | cons kv rest ih =>
    obtain ⟨k0, v0⟩ := kv
    rw [Dict.keys_cons, List.mem_cons] at h
    push_neg at h
    simp only [Dict.lookup?, if_neg (Ne.symm h.1)]
    exact ih h.2

/-- `dict.update(u)`: a key absent from `u` keeps `d`'s value. -/
theorem Dict.lookup?_updateWith_none {α : Type} (u : Dict α) :
    ∀ (d : Dict α), (Dict.keys u).Nodup → ∀ k, Dict.lookup? u k = none →
      Dict.lookup? (d.updateWith u) k = Dict.lookup? d k := by
  induction u with
  | nil => intro d _ k _; rfl
  | cons kv rest ih =>
    intro d hnd k hu
    obtain ⟨k0, v0⟩ := kv
    rw [Dict.keys_cons, List.nodup_cons] at hnd
    have hk : k0 ≠ k := by
      intro e
      rw [Dict.lookup?, if_pos e] at hu
      cases hu
    rw [Dict.lookup?, if_neg hk] at hu
    show Dict.lookup? (Dict.updateWith (d.setKey k0 v0) rest) k = _
    rw [ih _ hnd.2 k hu]
    exact Dict.lookup?_setKey_ne d hk v0

/-- `dict.update(u)`: a key present in `u` takes `u`'s value. -/
theorem Dict.lookup?_updateWith_some {α : Type} (u : Dict α) :
    ∀ (d : Dict α), (Dict.keys u).Nodup → ∀ k v, Dict.lookup? u k = some v →
      Dict.lookup? (d.updateWith u) k = some v := by
  induction u with
  | nil => intro d _ k v hu; cases hu
  | cons kv rest ih =>
    intro d hnd k v hu
    obtain ⟨k0, v0⟩ := kv
    rw [Dict.keys_cons, List.nodup_cons] at hnd
    show Dict.lookup? (Dict.updateWith (d.setKey k0 v0) rest) k = some v
    by_cases hk : k0 = k
    · subst hk
      rw [Dict.lookup?, if_pos rfl] at hu
      have hrest : Dict.lookup? rest k0 = none :=
        Dict.lookup?_eq_none_of_not_mem_keys hnd.1
      rw [Dict.lookup?_updateWith_none rest _ hnd.2 k0 hrest,
        Dict.lookup?_setKey_self d k0 v0]
      exact hu
    · rw [Dict.lookup?, if_neg hk] at hu
      exact ih _ hnd.2 k v hu

/-! ### C4: `validate_and_consume` -/

theorem applyPaperUpd_frame (info : PrinterInfo) (o : Option (Dict Nat)) :
    (applyPaperUpd info o).supported = info.supported ∧
    (applyPaperUpd info o).ink = info.ink ∧
    (applyPaperUpd info o).speed = info.speed ∧
    (applyPaperUpd info o).queue = info.queue := by
  cases o with
  | none => exact ⟨rfl, rfl, rfl, rfl⟩
  | some pc =>
    simp only [applyPaperUpd]
    split_ifs <;> exact ⟨rfl, rfl, rfl, rfl⟩

theorem applyInkUpd_frame (info : PrinterInfo) (o : Option (Dict ℚ)) :
    (applyInkUpd info o).supported = info.supported ∧
    (applyInkUpd info o).paper_count = info.paper_count ∧
    (applyInkUpd info o).speed = info.speed ∧
    (applyInkUpd info o).queue = info.queue := by
  cases o with
  | none => exact ⟨rfl, rfl, rfl, rfl⟩
  | some ik =>
    simp only [applyInkUpd]
    split_ifs <;> exact ⟨rfl, rfl, rfl, rfl⟩

theorem applyPaperUpd_lookup (info : PrinterInfo) (o : Option (Dict Nat))
    (ho : ∀ pc, o = some pc → (Dict.keys pc).Nodup) :
    (∀ k v, Dict.lookup? (o.getD []) k = some v →
      Dict.lookup? (applyPaperUpd info o).paper_count k = some v) ∧
    (∀ k, Dict.lookup? (o.getD []) k = none →
      Dict.lookup? (applyPaperUpd info o).paper_count k = Dict.lookup? info.paper_count k) := by
  cases o with
  | none => exact ⟨(fun k v hv => nomatch hv), fun k _ => rfl⟩
  | some pc =>
    simp only [applyPaperUpd, Option.getD_some]
    by_cases he : pc.isEmpty
    · rw [List.isEmpty_iff] at he
      subst he
      exact ⟨(fun k v hv => nomatch hv), fun k _ => rfl⟩
    · rw [if_neg (by simpa using he)]
      constructor
      · intro k v hv
        exact Dict.lookup?_updateWith_some pc info.paper_count (ho pc rfl) k v hv
      · intro k hv
        exact Dict.lookup?_updateWith_none pc info.paper_count (ho pc rfl) k hv

theorem applyInkUpd_lookup (info : PrinterInfo) (o : Option (Dict ℚ))
    (ho : ∀ ik, o = some ik → (Dict.keys ik).Nodup) :
    (∀ k v, Dict.lookup? (o.getD []) k = some v →
      Dict.lookup? (applyInkUpd info o).ink k = some v) ∧
    (∀ k, Dict.lookup? (o.getD []) k = none →
      Dict.lookup? (applyInkUpd info o).ink k = Dict.lookup? info.ink k) := by
  cases o with
  | none => exact ⟨(fun k v hv => nomatch hv), fun k _ => rfl⟩
  | some ik =>
    simp only [applyInkUpd, Option.getD_some]
    by_cases he : ik.isEmpty
    · rw [List.isEmpty_iff] at he
      subst he
      exact ⟨(fun k v hv => nomatch hv), fun k _ => rfl⟩
    · rw [if_neg (by simpa using he)]
      constructor
      · intro k v hv
        exact Dict.lookup?_updateWith_some ik info.ink (ho ik rfl) k v hv
      · intro k hv
        exact Dict.lookup?_updateWith_none ik info.ink (ho ik rfl) k hv

/-- C10 (confirmed): for a known printer, `update_printer_resources`
sets exactly the supplied paper kinds and ink channels to the supplied
absolute values, leaves every other paper kind, ink channel and field
of that printer and all other printers (and the weights) unchanged,
increments exactly that printer's version by 1, and clears the entire
assignment cache. -/
theorem c10_update_frame (s : SchedState) (printer_id : String) (info : PrinterInfo)
    (paper_count : Option (Dict Nat)) (ink : Option (Dict ℚ))
    (hpid : Dict.lookup? s.printers printer_id = some info)
    (hpc : ∀ pc, paper_count = some pc → (Dict.keys pc).Nodup)
    (hik : ∀ ik, ink = some ik → (Dict.keys ik).Nodup) :
    (update_printer_resources s printer_id paper_count ink).2 = none ∧
    (update_printer_resources s printer_id paper_count ink).1.cache = [] ∧
    (update_printer_resources s printer_id paper_count ink).1.weights = s.weights ∧
    (update_printer_resources s printer_id paper_count ink).1.versions.lookupD printer_id 0 =
      s.versions.lookupD printer_id 0 + 1 ∧
    (∀ p2, p2 ≠ printer_id →
      Dict.lookup? (update_printer_resources s printer_id paper_count ink).1.versions p2 =
        Dict.lookup? s.versions p2) ∧
    (∀ p2, p2 ≠ printer_id →
      Dict.lookup? (update_printer_resources s printer_id paper_count ink).1.printers p2 =
        Dict.lookup? s.printers p2) ∧
    (∃ info3,
      Dict.lookup? (update_printer_resources s printer_id paper_count ink).1.printers
        printer_id = some info3 ∧
      info3.supported = info.supported ∧ info3.speed = info.speed ∧
      info3.queue = info.queue ∧
      (∀ k v, Dict.lookup? (paper_count.getD []) k = some v →
        Dict.lookup? info3.paper_count k = some v) ∧
      (∀ k, Dict.lookup? (paper_count.getD []) k = none →
        Dict.lookup? info3.paper_count k = Dict.lookup? info.paper_count k) ∧
      (∀ ch v, Dict.lookup? (ink.getD []) ch = some v →
        Dict.lookup? info3.ink ch = some v) ∧
      (∀ ch, Dict.lookup? (ink.getD []) ch = none →
        Dict.lookup? info3.ink ch = Dict.lookup? info.ink ch)) := by
  unfold update_printer_resources
  rw [hpid]
  refine ⟨rfl, rfl, rfl, Dict.lookupD_setKey_self _ _ _ _, ?_, ?_, ?_⟩
  · intro p2 hne
    exact Dict.lookup?_setKey_ne s.versions (fun e => hne e.symm) _
  · intro p2 hne
    exact Dict.lookup?_setKey_ne s.printers (fun e => hne e.symm) _
  · refine ⟨applyInkUpd (applyPaperUpd info paper_count) ink,
      Dict.lookup?_setKey_self s.printers printer_id _, ?_, ?_, ?_, ?_, ?_, ?_, ?_⟩
    · rw [(applyInkUpd_frame _ ink).1, (applyPaperUpd_frame info paper_count).1]
    · rw [(applyInkUpd_frame _ ink).2.2.1, (applyPaperUpd_frame info paper_count).2.2.1]
    · rw [(applyInkUpd_frame _ ink).2.2.2, (applyPaperUpd_frame info paper_count).2.2.2]
    · intro k v hv
      rw [(applyInkUpd_frame _ ink).2.1]
      exact (applyPaperUpd_lookup info paper_count hpc).1 k v hv
    · intro k hv
      rw [(applyInkUpd_frame _ ink).2.1]
      exact (applyPaperUpd_lookup info paper_count hpc).2 k hv
    · intro ch v hv
      exact (applyInkUpd_lookup _ ink hik).1 ch v hv
    · intro ch hv
      rw [(applyInkUpd_lookup _ ink hik).2 ch hv, (applyPaperUpd_frame info paper_count).2.1]

def c10state : SchedState :=
  ⟨[("P1", ⟨["bw"], [("A4", 50), ("A3", 20)], [("black", 30)], some 35, PQueue.empty⟩),
    ("P2", ⟨["color"], [("A4", 10)], [("C", 5)], some 10, PQueue.empty⟩)],
   [("P1", 7)], Config.DEFAULT_WEIGHTS,
   [((([] : Order), ([] : Dict PrinterSnap)), ⟨⟨"old", [], [], [], 0⟩, 0⟩)]⟩

/-- C10 witness: refilling P1's A4 to 200 and black ink to 100 updates
exactly those entries, leaves A3 and printer P2 alone, bumps P1's
version 7 → 8, and clears the (nonempty) cache. -/
theorem c10_witness :
    (update_printer_resources c10state "P1" (some [("A4", 200)])
        (some [("black", 100)])).1.cache = [] ∧
    (update_printer_resources c10state "P1" (some [("A4", 200)])
        (some [("black", 100)])).1.versions.lookupD "P1" 0 = 8 ∧
    (∃ info3,
      Dict.lookup? (update_printer_resources c10state "P1" (some [("A4", 200)])
        (some [("black", 100)])).1.printers "P1" = some info3 ∧
      Dict.lookup? info3.paper_count "A4" = some 200 ∧
      Dict.lookup? info3.paper_count "A3" = some 20) ∧
    Dict.lookup? (update_printer_resources c10state "P1" (some [("A4", 200)])
        (some [("black", 100)])).1.printers "P2" =
      Dict.lookup? c10state.printers "P2" := by
  have h := c10_update_frame c10state "P1"
    (⟨["bw"], [("A4", 50), ("A3", 20)], [("black", 30)], some 35, PQueue.empty⟩)
    (some [("A4", 200)]) (some [("black", 100)]) (by rfl)
    (by intro pc hpc; cases hpc; simp [Dict.keys])
    (by intro ik hik; cases hik; simp [Dict.keys])
  obtain ⟨info3, hl, hsup, hspd, hq, hps, hpn, his, hin⟩ := h.2.2.2.2.2.2
  refine ⟨h.2.1, ?_, ⟨info3, hl, ?_, ?_⟩, ?_⟩
  · rw [h.2.2.2.1]
    decide
  · exact hps "A4" 200 (by rfl)
  · rw [hpn "A3" (by rfl)]
    rfl
  · exact h.2.2.2.2.2.1 "P2" (by decide)

/-! ### C8: printer status label -/

/-- C8 (amended): `get_printer_status` labels the printer `low_paper`
when EVERY paper kind's count is below 10 — the source tests
`all(count < 10 ...)`, not `any` as the claim states — otherwise
`low_ink` when any ink channel is below 10, otherwise `queue_full` when
the queue is at or above `MAX_QUEUE_LENGTH`, otherwise `ready`. -/
theorem c8_status_characterization (s : SchedState) (printer_id : String)
    (info : PrinterInfo) (hpid : Dict.lookup? s.printers printer_id = some info) :
    ∃ st, get_printer_status s printer_id = .ok st ∧
      st.printer_id = printer_id ∧
      st.supported = info.supported ∧
      st.paper_count = info.paper_count ∧
      st.ink = info.ink ∧
      st.queue_size = info.queue.size ∧
      st.status =
        (if ∀ pc ∈ info.paper_count, pc.2 < 10 then "low_paper"
         else if ∃ iv ∈ info.ink, iv.2 < 10 then "low_ink"
         else if Config.MAX_QUEUE_LENGTH ≤ info.queue.size then "queue_full"
         else "ready") := by
  have hb1 : ((info.paper_count.all fun pc => decide (pc.2 < 10)) = true) ↔
      ∀ pc ∈ info.paper_count, pc.2 < 10 := by
    simp [List.all_eq_true]
  have hb2 : ((info.ink.any fun iv => decide (iv.2 < 10)) = true) ↔
      ∃ iv ∈ info.ink, iv.2 < 10 := by
    simp [List.any_eq_true]
  unfold get_printer_status
  rw [hpid]
  refine ⟨_, rfl, rfl, rfl, rfl, rfl, rfl, ?_⟩
  unfold determine_printer_status
  by_cases h1 : ∀ pc ∈ info.paper_count, pc.2 < 10
  · rw [if_pos (hb1.mpr h1), if_pos h1]
  · rw [if_neg (fun hb => h1 (hb1.mp hb)), if_neg h1]
    by_cases h2 : ∃ iv ∈ info.ink, iv.2 < 10
    · rw [if_pos (hb2.mpr h2), if_pos h2]
    · rw [if_neg (fun hb => h2 (hb2.mp hb)), if_neg h2]

def c8state : SchedState :=
  ⟨[("P1", ⟨["bw"], [("A4", 5), ("A3", 50)], [("black", 70)], some 35, PQueue.empty⟩)],
   [], Config.DEFAULT_WEIGHTS, []⟩

/-- C8 counterexample: printer P1 holds A4 = 5 (< 10) and A3 = 50, with
healthy ink and an empty queue.  The claim demands `low_paper` because
one paper kind is below 10; the code answers `ready`, because its check
is `all(count < 10)`, not `any`. -/
theorem c8_counterexample :
    ∃ st, get_printer_status c8state "P1" = .ok st ∧
      ("A4", 5) ∈ st.paper_count ∧ (5 : Nat) < 10 ∧
      st.status = "ready" ∧ st.status ≠ "low_paper" := by
  have hgs : get_printer_status c8state "P1" =
      .ok ⟨"P1", ["bw"], [("A4", 5), ("A3", 50)], [("black", 70)], some 35, 0, "ready"⟩ := by
    norm_num [get_printer_status, c8state, determine_printer_status, Dict.lookup?,
      PQueue.size, PQueue.empty, Config.MAX_QUEUE_LENGTH]
  exact ⟨_, hgs, by decide, by decide, rfl, by decide⟩

def c8wstate : SchedState :=
  ⟨[("P1", ⟨["bw"], [("A4", 5)], [("black", 70)], some 35, PQueue.empty⟩)],
   [], Config.DEFAULT_WEIGHTS, []⟩

/-- C8 witness: the amended characterization applied to a printer all
of whose paper kinds are below 10 yields `low_paper`. -/
theorem c8_witness :
    ∃ st, get_printer_status c8wstate "P1" = .ok st ∧ st.status = "low_paper" := by
  obtain ⟨st, hst, _, _, _, _, _, hstat⟩ :=
    c8_status_characterization c8wstate "P1"
      ⟨["bw"], [("A4", 5)], [("black", 70)], some 35, PQueue.empty⟩ rfl
  refine ⟨st, hst, ?_⟩
  rw [hstat]
  norm_num

/-! ### C7: scorer bounds and hard-fail zeros -/

theorem percent_score_bounds (p : ℚ) : 0 ≤ percent_score p ∧ percent_score p ≤ 1 := by
  unfold percent_score
  constructor
  · positivity
  · rw [div_le_one (by norm_num : (0:ℚ) < 100)]
    exact max_le (by norm_num) (min_le_left _ _)

theorem queue_score_bounds (q : Nat) : 0 ≤ queue_score q ∧ queue_score q ≤ 1 := by
  unfold queue_score
  constructor
  · positivity
  · rw [div_le_one (by positivity)]
    have : (0:ℚ) ≤ (q : ℚ) := by positivity
    linarith

theorem lookupD_weight_bounds (weights : Dict ℚ)
    (hw : ∀ kv ∈ weights, 0 ≤ kv.2 ∧ kv.2 ≤ 1) (key : String) (dflt : ℚ)
    (h0 : 0 ≤ dflt) (h1 : dflt ≤ 1) :
    0 ≤ weights.lookupD key dflt ∧ weights.lookupD key dflt ≤ 1 := by
  unfold Dict.lookupD
  cases h : Dict.lookup? weights key with
  | none => simpa using ⟨h0, h1⟩
  | some v =>
    have := hw (key, v) (Dict.mem_of_lookup?_eq_some h)
    simpa using this

theorem validate_weights_bounds {weights : Dict ℚ} (hw : validate_weights weights = true) :
    ∀ kv ∈ weights, 0 ≤ kv.2 ∧ kv.2 ≤ 1 := by
  unfold validate_weights at hw
  simp only [Bool.and_eq_true, List.all_eq_true, decide_eq_true_eq] at hw
  intro kv hkv
  exact hw.2 kv hkv

theorem paperPctsReq_none {paper : Dict Nat} {pcs : Dict Nat}
    (h : ∃ pc ∈ pcs, paper.lookupD pc.1 0 < pc.2) :
    paperPctsReq paper pcs = none := by
  induction pcs with
  | nil => simp at h
  | cons pc0 rest ih =>
    obtain ⟨k0, n0⟩ := pc0
    simp only [paperPctsReq]
    rcases h with ⟨pc, hmem, hlt⟩
    rcases List.mem_cons.mp hmem with rfl | hmem2
    · rw [if_pos hlt]
    · by_cases hshort : paper.lookupD k0 0 < n0
      · rw [if_pos hshort]
      · rw [if_neg hshort, ih ⟨pc, hmem2, hlt⟩]
        rfl

theorem paperPcts_none {paper : Dict Nat} {req : SuborderReq}
    (h : ∃ kv ∈ req, ∃ pc ∈ kv.2.paper_count, paper.lookupD pc.1 0 < pc.2) :
    paperPcts paper req = none := by
  induction req with
  | nil => simp at h
  | cons kv0 rest ih =>
    obtain ⟨t0, r0⟩ := kv0
    simp only [paperPcts]
    rcases h with ⟨kv, hmem, hpc⟩
    rcases List.mem_cons.mp hmem with rfl | hmem2
    · rw [paperPctsReq_none hpc]
    · cases hh : paperPctsReq paper r0.paper_count with
      | none => rfl
      | some l1 => rw [ih ⟨kv, hmem2, hpc⟩]; rfl

/-- The hard-fail condition of the ink scan for one print type: the
scan's required channels (black for `bw`; C, M, Y for the four colour
types) at or below 0. -/
def inkHardFail (ink : Dict ℚ) (t : String) : Prop :=
  (t = "bw" ∧ ink.lookupD "black" 0 ≤ 0) ∨
  ((t = "color" ∨ t = "glossy" ∨ t = "postersize" ∨ t = "thick") ∧
    (ink.lookupD "C" 0 ≤ 0 ∨ ink.lookupD "M" 0 ≤ 0 ∨ ink.lookupD "Y" 0 ≤ 0))

theorem inkPctsOne_none {ink : Dict ℚ} {t : String} (h : inkHardFail ink t) :
    inkPctsOne ink t = none := by
  unfold inkPctsOne
  rcases h with ⟨rfl, hbl⟩ | ⟨ht, hcmy⟩
  · simp [hbl]
  · have hnbw : t ≠ "bw" := by
      rcases ht with rfl | rfl | rfl | rfl <;> decide
    simp [hnbw, ht, hcmy]

theorem inkPcts_none {ink : Dict ℚ} {types : List String}
    (h : ∃ t ∈ types, inkHardFail ink t) : inkPcts ink types = none := by
  induction types with
  | nil => simp at h
  | cons t0 rest ih =>
    simp only [inkPcts]
    rcases h with ⟨t, hmem, hfail⟩
    rcases List.mem_cons.mp hmem with rfl | hmem2
    · rw [inkPctsOne_none hfail]
    · cases hh : inkPctsOne ink t0 with
      | none => rfl
      | some l1 => rw [ih ⟨t, hmem2, hfail⟩]; rfl

/-- C7 (amended): for weights passing `validate_weights` (each value in
[0, 1], total within 1.0 ± 0.01), `score_printer_for_suborder` — a pure
function — returns a value between 0 and the SUM OF THE FIVE EFFECTIVE
WEIGHTS (the supplied value or the built-in default of each of paper,
ink, speed, queue, extras).  That sum, and hence the score, can exceed
1 when some of the five keys are missing (`c7_counterexample`), so the
claimed upper bound of 1 is false as stated.  The score is exactly 0
whenever a required paper kind is short or a required ink channel (as
the spec defines required channels: black for bw; C, M, Y for
color/glossy/postersize/thick) is at or below 0. -/
theorem c7_score_bounds (printer_info : PrinterInfo) (suborder_req : SuborderReq)
    (weights : Dict ℚ) (hw : validate_weights weights = true) :
    (0 ≤ score_printer_for_suborder printer_info suborder_req weights ∧
     score_printer_for_suborder printer_info suborder_req weights ≤
       weights.lookupD "paper" (Config.DEFAULT_WEIGHTS.lookupD "paper" 0) +
       weights.lookupD "ink" (Config.DEFAULT_WEIGHTS.lookupD "ink" 0) +
       weights.lookupD "speed" (Config.DEFAULT_WEIGHTS.lookupD "speed" 0) +
       weights.lookupD "queue" (Config.DEFAULT_WEIGHTS.lookupD "queue" 0) +
       weights.lookupD "extras" (Config.DEFAULT_WEIGHTS.lookupD "extras" 0)) ∧
    ((∃ kv ∈ suborder_req, ∃ pc ∈ kv.2.paper_count,
        printer_info.paper_count.lookupD pc.1 0 < pc.2) →
      score_printer_for_suborder printer_info suborder_req weights = 0) ∧
    ((∃ t ∈ suborder_req.map (·.1), inkHardFail printer_info.ink t) →
      score_printer_for_suborder printer_info suborder_req weights = 0) := by
  have hb := validate_weights_bounds hw
  have hwp := lookupD_weight_bounds weights hb "paper"
    (Config.DEFAULT_WEIGHTS.lookupD "paper" 0) (by simp [Config.DEFAULT_WEIGHTS, Dict.lookupD, Dict.lookup?] <;> norm_num)
    (by simp [Config.DEFAULT_WEIGHTS, Dict.lookupD, Dict.lookup?] <;> norm_num)
  have hwi := lookupD_weight_bounds weights hb "ink"
    (Config.DEFAULT_WEIGHTS.lookupD "ink" 0) (by simp [Config.DEFAULT_WEIGHTS, Dict.lookupD, Dict.lookup?] <;> norm_num)
    (by simp [Config.DEFAULT_WEIGHTS, Dict.lookupD, Dict.lookup?] <;> norm_num)
  have hws := lookupD_weight_bounds weights hb "speed"
    (Config.DEFAULT_WEIGHTS.lookupD "speed" 0) (by simp [Config.DEFAULT_WEIGHTS, Dict.lookupD, Dict.lookup?] <;> norm_num)
    (by simp [Config.DEFAULT_WEIGHTS, Dict.lookupD, Dict.lookup?] <;> norm_num)
  have hwq := lookupD_weight_bounds weights hb "queue"
    (Config.DEFAULT_WEIGHTS.lookupD "queue" 0) (by simp [Config.DEFAULT_WEIGHTS, Dict.lookupD, Dict.lookup?] <;> norm_num)
    (by simp [Config.DEFAULT_WEIGHTS, Dict.lookupD, Dict.lookup?] <;> norm_num)
  have hwe := lookupD_weight_bounds weights hb "extras"
    (Config.DEFAULT_WEIGHTS.lookupD "extras" 0) (by simp [Config.DEFAULT_WEIGHTS, Dict.lookupD, Dict.lookup?] <;> norm_num)
    (by simp [Config.DEFAULT_WEIGHTS, Dict.lookupD, Dict.lookup?] <;> norm_num)
  refine ⟨?_, ?_, ?_⟩
  · unfold score_printer_for_suborder
    cases hpp : paperPcts printer_info.paper_count suborder_req with
    | none =>
      constructor
      · exact le_refl 0
      · have := hwp.1; have := hwi.1; have := hws.1; have := hwq.1; have := hwe.1
        linarith
    | some ppcts =>
      cases hip : inkPcts printer_info.ink (suborder_req.map (·.1)) with
      | none =>
        constructor
        · exact le_refl 0
        · have := hwp.1; have := hwi.1; have := hws.1; have := hwq.1; have := hwe.1
          linarith
      | some ipcts =>
        dsimp only
        have hpsc := percent_score_bounds (pyMin ppcts 100)
        have hisc := percent_score_bounds (pyMin ipcts 100)
        have hssc : 0 ≤ (match printer_info.speed with
            | none => (1 : ℚ)/2
            | some sp => percent_score (min sp 100)) ∧
            (match printer_info.speed with
            | none => (1 : ℚ)/2
            | some sp => percent_score (min sp 100)) ≤ 1 := by
          cases printer_info.speed with
          | none => norm_num
          | some sp => exact percent_score_bounds (min sp 100)
        have hqsc := queue_score_bounds printer_info.queue.size
        have hesc : 0 ≤ 1 - (min (((printer_info.supported.dedup.filter
              (fun c => ¬ suborder_req.hasKey c)).length : ℚ)) 10) / 10 ∧
            1 - (min (((printer_info.supported.dedup.filter
              (fun c => ¬ suborder_req.hasKey c)).length : ℚ)) 10) / 10 ≤ 1 := by
          have hmle : min (((printer_info.supported.dedup.filter
              (fun c => ¬ suborder_req.hasKey c)).length : ℚ)) 10 ≤ 10 := min_le_right _ _
          have hmge : (0:ℚ) ≤ min (((printer_info.supported.dedup.filter
              (fun c => ¬ suborder_req.hasKey c)).length : ℚ)) 10 :=
            le_min (by positivity) (by norm_num)
          constructor <;> linarith
        constructor
        · have := mul_nonneg hwp.1 hpsc.1
          have := mul_nonneg hwi.1 hisc.1
          have := mul_nonneg hws.1 hssc.1
          have := mul_nonneg hwq.1 hqsc.1
          have := mul_nonneg hwe.1 hesc.1
          linarith
        · have h1 := mul_le_of_le_one_right hwp.1 hpsc.2
          have h2 := mul_le_of_le_one_right hwi.1 hisc.2
          have h3 := mul_le_of_le_one_right hws.1 hssc.2
          have h4 := mul_le_of_le_one_right hwq.1 hqsc.2
          have h5 := mul_le_of_le_one_right hwe.1 hesc.2
          linarith
  · intro h
    unfold score_printer_for_suborder
    rw [paperPcts_none h]
  · intro h
    unfold score_printer_for_suborder
    cases hpp : paperPcts printer_info.paper_count suborder_req with
    | none => rfl
    | some ppcts => rw [inkPcts_none h]

def c7printer : PrinterInfo := ⟨["bw"], [("A4", 100)], [("black", 100)], some 50, PQueue.empty⟩

def c7req : SuborderReq := [("bw", ⟨[]⟩)]

/-- C7 counterexample: the weight map `{"paper": 1.0}` passes
`validate_weights` (single value in [0, 1], total exactly 1.0), yet the
scorer fills the four missing weights with their defaults
(0.30 + 0.15 + 0.15 + 0.05), so the effective weights sum to 1.65 and
the returned score is 1.575 > 1 — outside the claimed range [0, 1]. -/
theorem c7_counterexample :
    validate_weights [("paper", 1)] = true ∧
    score_printer_for_suborder c7printer c7req [("paper", 1)] = 63/40 ∧
    (1 : ℚ) < 63/40 := by
  refine ⟨?_, ?_, by norm_num⟩
  · norm_num [validate_weights]
  · simp only [score_printer_for_suborder, c7printer, c7req, paperPcts, paperPctsReq,
      inkPcts, inkPctsOne, percent_score, queue_score, pyMin, Dict.lookupD, Dict.lookup?,
      Dict.hasKey, Config.DEFAULT_WEIGHTS, PQueue.size, PQueue.empty, List.dedup]
    simp
    norm_num

/-- C7 witness: the amended bounds applied to the counterexample's
inputs: the score 1.575 is within [0, sum of effective weights 1.65]. -/
theorem c7_witness :
    0 ≤ score_printer_for_suborder c7printer c7req [("paper", 1)] ∧
    score_printer_for_suborder c7printer c7req [("paper", 1)] ≤
      Dict.lookupD [("paper", 1)] "paper" (Config.DEFAULT_WEIGHTS.lookupD "paper" 0) +
      Dict.lookupD [("paper", 1)] "ink" (Config.DEFAULT_WEIGHTS.lookupD "ink" 0) +
      Dict.lookupD [("paper", 1)] "speed" (Config.DEFAULT_WEIGHTS.lookupD "speed" 0) +
      Dict.lookupD [("paper", 1)] "queue" (Config.DEFAULT_WEIGHTS.lookupD "queue" 0) +
      Dict.lookupD [("paper", 1)] "extras" (Config.DEFAULT_WEIGHTS.lookupD "extras" 0) :=
  (c7_score_bounds c7printer c7req [("paper", 1)] (by norm_num [validate_weights])).1

/-! ### C3: cover correctness of the planner -/

theorem combosR_subset : ∀ (l : List String) (r : Nat) (c : List String),
    c ∈ combosR l r → ∀ x ∈ c, x ∈ l := by
  intro l
  induction l with
  | nil =>
    intro r c hc
    cases r with
    | zero => simp [combosR] at hc; simp [hc]
    | succ r => simp [combosR] at hc
  | cons y ys ih =>
    intro r c hc
    cases r with
    | zero =>
      simp [combosR] at hc
      simp [hc]
    | succ r =>
      simp only [combosR, List.mem_append, List.mem_map] at hc
      rcases hc with ⟨c0, hc0, rfl⟩ | hc
      · intro x hx
        rcases List.mem_cons.mp hx with rfl | hx
        · exact List.mem_cons_self _ _
        · exact List.mem_cons_of_mem _ (ih r c0 hc0 x hx)
      · intro x hx
        exact List.mem_cons_of_mem _ (ih (r + 1) c hc x hx)

theorem mem_foldl_append {α β : Type} (f : β → List α) (l : List β)
    (init : List α) (x : α) :
    x ∈ l.foldl (fun acc r => acc ++ f r) init ↔
      x ∈ init ∨ ∃ r ∈ l, x ∈ f r := by
  induction l generalizing init with
  | nil => simp
  | cons b bs ih =>
    rw [List.foldl_cons, ih]
    simp only [List.mem_append, List.mem_cons]
    constructor
    · rintro ((hx | hx) | ⟨r, hr, hx⟩)
      · exact Or.inl hx
      · exact Or.inr ⟨b, Or.inl rfl, hx⟩
      · exact Or.inr ⟨r, Or.inr hr, hx⟩
    · rintro (hx | ⟨r, hr | hr, hx⟩)
      · exact Or.inl (Or.inl hx)
      · exact Or.inl (Or.inr (hr ▸ hx))
      · exact Or.inr ⟨r, hr, hx⟩

theorem dedup_fold_mem :
    ∀ (combos : List (List String)) (acc : List (List String) × List (List String))
      (c : List String),
      c ∈ (combos.foldl
        (fun (acc : List (List String) × List (List String)) s =>
          if sortStrings s ∈ acc.2 then acc else (acc.1 ++ [s], acc.2 ++ [sortStrings s]))
        acc).1 →
      c ∈ acc.1 ∨ c ∈ combos := by
  intro combos
  induction combos with
  | nil => intro acc c hc; exact Or.inl hc
  | cons s ss ih =>
    intro acc c hc
    rw [List.foldl_cons] at hc
    rcases ih _ c hc with h | h
    · by_cases hk : sortStrings s ∈ acc.2
      · rw [if_pos hk] at h
        exact Or.inl h
      · rw [if_neg hk] at h
        rcases List.mem_append.mp h with h | h
        · exact Or.inl h
        · exact Or.inr (List.mem_cons.mpr (Or.inl (List.mem_singleton.mp h)))
    · exact Or.inr (List.mem_cons_of_mem _ h)

theorem dedupBySortedKey_subset (combos : List (List String)) (c : List String)
    (hc : c ∈ dedupBySortedKey combos) : c ∈ combos := by
  unfold dedupBySortedKey at hc
  rcases dedup_fold_mem combos ([], []) c hc with h | h
  · simp at h
  · exact h

theorem valid_supported_combos_subset (order_types : List String)
    (printers : Dict PrinterInfo) (c : List String)
    (hc : c ∈ valid_supported_combos order_types printers) :
    ∀ x ∈ c, x ∈ order_types := by
  simp only [valid_supported_combos] at hc
  have h1 := dedupBySortedKey_subset _ _ hc
  have h2 := (mem_foldl_append
    (fun r => (combosR order_types r).filter
      (fun combo => !(find_capable_printers printers combo).isEmpty))
    _ _ c).mp h1
  rcases h2 with h | ⟨r, _, h⟩
  · simp at h
  · exact combosR_subset order_types r c (List.mem_filter.mp h).1

theorem greedyPick_fold_mem (remaining : List String) :
    ∀ (combos : List (List String)) (st : Option (List String) × Nat) (c : List String),
      (combos.foldl
        (fun (st : Option (List String) × Nat) combo =>
          if st.2 < (combo.filter (· ∈ remaining)).length then
            (some combo, (combo.filter (· ∈ remaining)).length)
          else st)
        st).1 = some c →
      st.1 = some c ∨ c ∈ combos := by
  intro combos
  induction combos with
  | nil => intro st c h; exact Or.inl h
  | cons s ss ih =>
    intro st c h
    rw [List.foldl_cons] at h
    rcases ih _ c h with h1 | h1
    · by_cases hl : st.2 < (s.filter (· ∈ remaining)).length
      · rw [if_pos hl] at h1
        have hsc : s = c := by simpa using h1
        exact Or.inr (hsc ▸ List.mem_cons_self s ss)
      · rw [if_neg hl] at h1
        exact Or.inl h1
    · exact Or.inr (List.mem_cons_of_mem _ h1)

theorem greedyPick_mem (combos : List (List String)) (remaining : List String)
    (c : List String) (h : greedyPick combos remaining = some c) : c ∈ combos := by
  unfold greedyPick at h
  rcases greedyPick_fold_mem remaining combos (none, 0) c h with h1 | h1
  · exact absurd h1 (by simp)
  · exact h1

theorem greedyCover_covers :
    ∀ (fuel : Nat) (combos : List (List String)) (remaining : List String)
      (subs : List (List String)),
      greedyCover combos fuel remaining = .ok subs →
      ∀ t ∈ remaining, ∃ s ∈ subs, t ∈ s := by
  intro fuel
  induction fuel with
  | zero =>
    intro combos remaining subs h t ht
    rw [greedyCover] at h
    by_cases he : remaining.isEmpty
    · rw [List.isEmpty_iff] at he
      rw [he] at ht
      cases ht
    · rw [if_neg he] at h
      cases h
  | succ fuel ih =>
    intro combos remaining subs h t ht
    rw [greedyCover] at h
    by_cases he : remaining.isEmpty
    · rw [List.isEmpty_iff] at he
      rw [he] at ht
      cases ht
    · rw [if_neg he] at h
      cases hp : greedyPick combos remaining with
      | none => rw [hp] at h; cases h
      | some best =>
        rw [hp] at h
        have h2 : Except.map (best :: ·)
            (greedyCover combos fuel (remaining.filter (· ∉ best))) = Except.ok subs := h
        cases hrec : greedyCover combos fuel (remaining.filter (· ∉ best)) with
        | error e => rw [hrec] at h2; cases h2
        | ok subs2 =>
          rw [hrec] at h2
          simp only [Except.map] at h2
          have hsubs : best :: subs2 = subs := Except.ok.inj h2
          by_cases htb : t ∈ best
          · exact ⟨best, by rw [← hsubs]; exact List.mem_cons_self _ _, htb⟩
          · have ht2 : t ∈ remaining.filter (· ∉ best) :=
              List.mem_filter.mpr ⟨ht, by simp [htb]⟩
            obtain ⟨s, hs, hts⟩ := ih combos _ subs2 hrec t ht2
            exact ⟨s, by rw [← hsubs]; exact List.mem_cons_of_mem _ hs, hts⟩

theorem greedyCover_mem_combos :
    ∀ (fuel : Nat) (combos : List (List String)) (remaining : List String)
      (subs : List (List String)),
      greedyCover combos fuel remaining = .ok subs →
      ∀ s ∈ subs, s ∈ combos := by
  intro fuel
  induction fuel with
  | zero =>
    intro combos remaining subs h s hs
    rw [greedyCover] at h
    by_cases he : remaining.isEmpty
    · rw [if_pos he] at h
      have : ([] : List (List String)) = subs := Except.ok.inj h
      rw [← this] at hs
      cases hs
    · rw [if_neg he] at h
      cases h
  | succ fuel ih =>
    intro combos remaining subs h s hs
    rw [greedyCover] at h
    by_cases he : remaining.isEmpty
    · rw [if_pos he] at h
      have : ([] : List (List String)) = subs := Except.ok.inj h
      rw [← this] at hs
      cases hs
    · rw [if_neg he] at h
      cases hp : greedyPick combos remaining with
      | none => rw [hp] at h; cases h
      | some best =>
        rw [hp] at h
        have h2 : Except.map (best :: ·)
            (greedyCover combos fuel (remaining.filter (· ∉ best))) = Except.ok subs := h
        cases hrec : greedyCover combos fuel (remaining.filter (· ∉ best)) with
        | error e => rw [hrec] at h2; cases h2
        | ok subs2 =>
          rw [hrec] at h2
          simp only [Except.map] at h2
          have hsubs : best :: subs2 = subs := Except.ok.inj h2
          rw [← hsubs] at hs
          rcases List.mem_cons.mp hs with rfl | hs
          · exact greedyPick_mem combos remaining s hp
          · exact ih combos _ subs2 hrec s hs

/-- C3: for every order on which the planner succeeds, the union of the
returned sub-orders' type lists equals the order's key set (every
returned type is an order key and every order key is covered).  The
claimed pairwise disjointness is refuted separately: the greedy loop
appends whole combos, which may share types with already-covered
ones. -/
theorem c3_cover_union (order : Order) (printers : Dict PrinterInfo)
    (subs : List (List String))
    (h : generate_suborders_from_order order printers = .ok subs) (t : String) :
    (∃ s ∈ subs, t ∈ s) ↔ t ∈ Dict.keys order := by
  simp only [generate_suborders_from_order] at h
  constructor
  · rintro ⟨s, hs, hts⟩
    have hsc := greedyCover_mem_combos _ _ _ _ h s hs
    exact valid_supported_combos_subset _ printers s hsc t hts
  · intro ht
    exact greedyCover_covers _ _ _ _ h t ht

def c3printers : Dict PrinterInfo :=
  [("PA", ⟨["bw", "color"], [("A4", 100)], [("black", 100)], some 50, PQueue.empty⟩),
   ("PB", ⟨["color", "glossy"], [("A4", 100)], [("black", 100)], some 50, PQueue.empty⟩)]

def c3order : Order :=
  [("bw", ⟨[("A4", 1)]⟩), ("color", ⟨[("A4", 1)]⟩), ("glossy", ⟨[("A4", 1)]⟩)]

/-- C3 counterexample to pairwise disjointness: with printers PA
supporting {bw, color} and PB supporting {color, glossy}, the order
{bw, color, glossy} is planned as the sub-orders [bw, color] and
[color, glossy]; the planner succeeds but "color" appears in both
sub-orders, so the returned type sets are not pairwise disjoint. -/
theorem c3_counterexample :
    generate_suborders_from_order c3order c3printers =
      .ok [["bw", "color"], ["color", "glossy"]] ∧
    "color" ∈ ["bw", "color"] ∧ "color" ∈ ["color", "glossy"] := by
  refine ⟨?_, by decide, by decide⟩
  rfl

/-- C3 witness: the cover-union theorem applied to the concrete
two-printer fleet and three-type order. -/
theorem c3_witness :
    (∃ s ∈ [["bw", "color"], ["color", "glossy"]], "glossy" ∈ s) ↔
      "glossy" ∈ Dict.keys c3order :=
  c3_cover_union c3order c3printers [["bw", "color"], ["color", "glossy"]] rfl "glossy"


/-! ### C2: behaviour of a failed queue push after a successful consume -/

/-- C2: in `_schedule_order_internal`, when the queue push fails with
`QueueOverflowError` after a successful `validate_and_consume`, the
consumption is NOT rolled back and no other candidate printer is
tried: the commit returns the overflow error immediately, with the
consumed state (decremented paper and ink, incremented version) left
in place and the queue unchanged. -/
theorem c2_no_rollback_on_overflow (s : SchedState) (order : Order)
    (suborder_types : List String) (printer_id order_id : String) (priority : Int)
    (now : Nat) (printer_info info2 : PrinterInfo) (v2 : Dict Nat)
    (hpi : Dict.lookup? s.printers printer_id = some printer_info)
    (hvac : validate_and_consume s.versions printer_id printer_info
      (suborder_types.map fun t => (t, Dict.lookupD order t ⟨[]⟩))
      (get_snapshot s.versions printer_id printer_info now) = ((v2, info2), none))
    (hfull : info2.queue.max_length ≤ info2.queue.heap.length) :
    commit_suborder s order suborder_types printer_id order_id priority now =
      ({ s with versions := v2, printers := Dict.setKey s.printers printer_id info2 },
        some .queueOverflow) := by
  simp only [commit_suborder, hpi, hvac, PQueue.push, if_pos hfull]

def c2jobs : List Job := List.replicate 10 ⟨5, 0, "J0", [("bw", ⟨[("A4", 1)]⟩)]⟩

def c2info0 : PrinterInfo := ⟨["bw"], [("A4", 100)], [("black", 100)], some 50, ⟨c2jobs, 10⟩⟩

def c2info2 : PrinterInfo := ⟨["bw"], [("A4", 90)], [("black", 95)], some 50, ⟨c2jobs, 10⟩⟩

def c2state : SchedState :=
  { printers := [("P1", c2info0)], versions := [("P1", 0)], weights := [], cache := [] }

def c2order : Order := [("bw", ⟨[("A4", 10)]⟩)]

theorem c2_vac_eval :
    validate_and_consume c2state.versions "P1" c2info0
      (["bw"].map fun t => (t, Dict.lookupD c2order t ⟨[]⟩))
      (get_snapshot c2state.versions "P1" c2info0 0) = (([("P1", 1)], c2info2), none) := by
  have hpn : paperNeeded [("bw", (⟨[("A4", 10)]⟩ : Req))] = [("A4", 10)] := by decide
  have hin : inkNeeded [("bw", (⟨[("A4", 10)]⟩ : Req))] = [("black", 5)] := by
    norm_num [inkNeeded, Config.INK_CONSUMPTION, Dict.setKey, Dict.lookupD, Dict.lookup?]
  norm_num [validate_and_consume, get_snapshot, hpn, hin, c2state, c2info0, c2info2,
    c2order, Dict.lookupD, Dict.lookup?, Dict.setKey, Dict.modifyKey, List.find?]

/-- C2 counterexample to the claimed rollback: printer P1 holds
`MAX_QUEUE_LENGTH = 10` jobs, so the push overflows; the commit still
returns with 10 A4 sheets and 5 units of black ink consumed and the
version bumped to 1 — nothing is re-added and no retry happens. -/
theorem c2_counterexample :
    commit_suborder c2state c2order ["bw"] "P1" "O1" 5 0 =
      ({ c2state with versions := [("P1", 1)], printers := [("P1", c2info2)] },
        some .queueOverflow) := by
  have hpi : Dict.lookup? c2state.printers "P1" = some c2info0 := rfl
  simp only [commit_suborder, hpi, c2_vac_eval, PQueue.push,
    if_pos (show c2info2.queue.max_length ≤ c2info2.queue.heap.length by decide)]
  rfl

/-- C2 witness: the no-rollback theorem applied to the concrete
full-queue printer; it predicts exactly the overflow-with-consumption
outcome of the counterexample scenario. -/
theorem c2_witness :
    commit_suborder c2state c2order ["bw"] "P1" "O2" 5 0 =
      ({ c2state with
           versions := [("P1", 1)]
           printers := Dict.setKey c2state.printers "P1" c2info2 },
        some .queueOverflow) :=
  c2_no_rollback_on_overflow c2state c2order ["bw"] "P1" "O2" 5 0 c2info0 c2info2
    [("P1", 1)] rfl c2_vac_eval (by decide)

/-! ### C5: what `cancel_order` does and does not restore -/

/-- Resource-level frame between two scheduler states: equal versions,
weights and cache, and per-printer equal paper, ink, supported and
speed (queues are unconstrained). -/
def resourceFrame (a b : SchedState) : Prop :=
  a.versions = b.versions ∧ a.weights = b.weights ∧ a.cache = b.cache ∧
  ∀ pid info, Dict.lookup? a.printers pid = some info →
    ∃ info0, Dict.lookup? b.printers pid = some info0 ∧
      info.paper_count = info0.paper_count ∧ info.ink = info0.ink ∧
      info.supported = info0.supported ∧ info.speed = info0.speed

theorem resourceFrame_refl (a : SchedState) : resourceFrame a a :=
  ⟨rfl, rfl, rfl, fun _ info h => ⟨info, h, rfl, rfl, rfl, rfl⟩⟩

theorem resourceFrame_trans {a b c : SchedState} (hab : resourceFrame a b)
    (hbc : resourceFrame b c) : resourceFrame a c := by
  refine ⟨hab.1.trans hbc.1, hab.2.1.trans hbc.2.1, hab.2.2.1.trans hbc.2.2.1, ?_⟩
  intro pid info h
  obtain ⟨i1, h1, e1, e2, e3, e4⟩ := hab.2.2.2 pid info h
  obtain ⟨i2, h2, f1, f2, f3, f4⟩ := hbc.2.2.2 pid i1 h1
  exact ⟨i2, h2, e1.trans f1, e2.trans f2, e3.trans f3, e4.trans f4⟩

theorem cancelStep_frame (order_id pid : String) (acc : SchedState × Bool) :
    resourceFrame (cancelStep order_id acc pid).1 acc.1 := by
  unfold cancelStep
  cases hl : Dict.lookup? acc.1.printers pid with
  | none => exact resourceFrame_refl _
  | some info =>
    refine ⟨rfl, rfl, rfl, ?_⟩
    intro pid2 info2 h2
    by_cases he : pid = pid2
    · subst he
      rw [Dict.lookup?_setKey_self] at h2
      have : info2 = { info with queue := cancel_queue info.queue order_id } :=
        (Option.some.inj h2).symm
      exact ⟨info, hl, by rw [this], by rw [this], by rw [this], by rw [this]⟩
    · rw [Dict.lookup?_setKey_ne acc.1.printers he _] at h2
      exact ⟨info2, h2, rfl, rfl, rfl, rfl⟩

theorem cancel_fold_frame (order_id : String) :
    ∀ (pids : List String) (acc : SchedState × Bool),
      resourceFrame ((pids.foldl (cancelStep order_id) acc).1) acc.1 := by
  intro pids
  induction pids with
  | nil => intro acc; exact resourceFrame_refl _
  | cons p ps ih =>
    intro acc
    rw [List.foldl_cons]
    exact resourceFrame_trans (ih (cancelStep order_id acc p)) (cancelStep_frame order_id p acc)

/-- C5 (corrected): `cancel_order` never restores resources.  For every
state and every choice of order id and printer filter, the state it
returns has the same versions, weights and cache, and every surviving
printer entry keeps its paper counts, ink levels, supported types and
speed — only queues are rewritten.  In particular the consumed paper
and ink of a cancelled order are NOT re-added and no printer version
is incremented, contrary to the claimed restoration. -/
theorem c5_cancel_no_restore (s : SchedState) (order_id : String)
    (printer_id : Option String) :
    (cancel_order s order_id printer_id).1.versions = s.versions ∧
    (cancel_order s order_id printer_id).1.weights = s.weights ∧
    (cancel_order s order_id printer_id).1.cache = s.cache ∧
    ∀ pid info,
      Dict.lookup? (cancel_order s order_id printer_id).1.printers pid = some info →
      ∃ info0, Dict.lookup? s.printers pid = some info0 ∧
        info.paper_count = info0.paper_count ∧ info.ink = info0.ink ∧
        info.supported = info0.supported ∧ info.speed = info0.speed :=
  cancel_fold_frame order_id _ (s, false)

/-! ### A concrete schedule/cancel/reschedule scenario

One printer P1 (100 A4 sheets, 100 black ink, empty queue), one
order of 60 bw A4 pages.  Used by the C5 and C1 refutations. -/

def csinfo0 : PrinterInfo := ⟨["bw"], [("A4", 100)], [("black", 100)], some 50, PQueue.empty⟩

def cs0 : SchedState := { printers := [("P1", csinfo0)], versions := [], weights := [], cache := [] }

def csorder : Order := [("bw", ⟨[("A4", 60)]⟩)]

def csjob : Job := ⟨5, 0, "O1", [("bw", ⟨[("A4", 60)]⟩)]⟩

def csinfo1 : PrinterInfo := ⟨["bw"], [("A4", 40)], [("black", 70)], some 50, ⟨[csjob], 10⟩⟩

def cs1 : SchedState := { printers := [("P1", csinfo1)], versions := [("P1", 1)], weights := [], cache := [] }

def csres : SchedResult := ⟨"O1", ["P1"], [143/200], [["bw"]], 0⟩

theorem cs_score_eval :
    score_printer_for_suborder csinfo0 [("bw", ⟨[("A4", 60)]⟩)] [] = 143/200 := by
  simp only [score_printer_for_suborder, csinfo0, paperPcts, paperPctsReq,
    inkPcts, inkPctsOne, percent_score, queue_score, pyMin, Dict.lookupD, Dict.lookup?,
    Dict.hasKey, Config.DEFAULT_WEIGHTS, PQueue.size, PQueue.empty, List.dedup]
  simp
  norm_num

theorem cs_assign_eval :
    assign_printer_for_suborder ["bw"] csorder cs0.printers cs0.weights none =
      .ok ("P1", 143/200) := by
  have h2 : buildSuborderReq ["bw"] csorder = .ok [("bw", ⟨[("A4", 60)]⟩)] := rfl
  have hfull : csinfo0.queue.is_full = false := by decide
  have hcap : find_capable_printers cs0.printers ["bw"] = ["P1"] := rfl
  have hcand : (["P1"].filterMap fun pid =>
      (Dict.lookup? cs0.printers pid).map (fun info => (pid, info))) = [("P1", csinfo0)] := rfl
  have hsc : score_printer_for_suborder csinfo0 [("bw", ⟨[("A4", 60)]⟩)] cs0.weights =
      143/200 := cs_score_eval
  have hpos : (0 : ℚ) < 143/200 := by norm_num
  have hscan : scanCandidates [("bw", ⟨[("A4", 60)]⟩)] cs0.weights [("P1", csinfo0)] =
      ([(143/200, "P1")], [], []) := by
    simp only [scanCandidates, hfull, hsc, if_pos hpos, Bool.false_eq_true, if_false]
  simp only [assign_printer_for_suborder, h2, hcap, hcand, hscan]
  rfl

theorem cs_vac_eval :
    validate_and_consume cs0.versions "P1" csinfo0
      (["bw"].map fun t => (t, Dict.lookupD csorder t ⟨[]⟩))
      (get_snapshot cs0.versions "P1" csinfo0 0) =
      (([("P1", 1)], ⟨["bw"], [("A4", 40)], [("black", 70)], some 50, PQueue.empty⟩), none) := by
  have hpn : paperNeeded [("bw", (⟨[("A4", 60)]⟩ : Req))] = [("A4", 60)] := by decide
  have hin : inkNeeded [("bw", (⟨[("A4", 60)]⟩ : Req))] = [("black", 30)] := by
    norm_num [inkNeeded, Config.INK_CONSUMPTION, Dict.setKey, Dict.lookupD, Dict.lookup?]
  norm_num [validate_and_consume, get_snapshot, hpn, hin, cs0, csinfo0, csorder,
    Dict.lookupD, Dict.lookup?, Dict.setKey, Dict.modifyKey, List.find?]

theorem cs_commit_eval :
    commit_suborder cs0 csorder ["bw"] "P1" "O1" 5 0 = (cs1, none) := by
  have hpi : Dict.lookup? cs0.printers "P1" = some csinfo0 := rfl
  have hne : ¬ (⟨["bw"], [("A4", 40)], [("black", 70)], some 50,
      (PQueue.empty : PQueue)⟩ : PrinterInfo).queue.max_length ≤
      (⟨["bw"], [("A4", 40)], [("black", 70)], some 50,
      (PQueue.empty : PQueue)⟩ : PrinterInfo).queue.heap.length := by decide
  simp only [commit_suborder, hpi, cs_vac_eval, PQueue.push, if_neg hne]
  rfl

theorem cs_suborders_eval :
    schedule_suborders csorder "O1" 5 none 0 cs0 [["bw"]] =
      (cs1, .ok (["P1"], [143/200])) := by
  simp only [schedule_suborders, Option.none_bind, cs_assign_eval, cs_commit_eval]

theorem cs_internal_eval :
    schedule_order_internal cs0 csorder "O1" 5 none 0 = (cs1, .ok csres) := by
  have h1 : generate_suborders_from_order csorder cs0.printers = .ok [["bw"]] := rfl
  simp only [schedule_order_internal, h1, cs_suborders_eval]
  rfl

/-! ### C5 refutation scenario -/

def csinfo2 : PrinterInfo := ⟨["bw"], [("A4", 40)], [("black", 70)], some 50, ⟨[], 10⟩⟩

def cs2 : SchedState := { printers := [("P1", csinfo2)], versions := [("P1", 1)], weights := [], cache := [] }

/-- C5 counterexample: scheduling the 60-page order consumes 60 A4
sheets (100 → 40) and 30 black ink (100 → 70) and bumps the version to
1; cancelling the order removes the queued job but the state keeps
paper at 40 and black at 70 and the version at 1 — nothing is restored
and no version is incremented. -/
theorem c5_counterexample :
    schedule_order_internal cs0 csorder "O1" 5 none 0 = (cs1, .ok csres) ∧
    cancel_order cs1 "O1" none = (cs2, true) ∧
    Dict.lookupD csinfo2.paper_count "A4" 0 = 40 ∧
    Dict.lookupD csinfo0.paper_count "A4" 0 = 100 ∧
    cs2.versions = cs1.versions := by
  refine ⟨cs_internal_eval, ?_, by decide, by decide, rfl⟩
  rfl

/-- C5 witness: the no-restore frame theorem applied to the concrete
post-schedule state: cancelling leaves the versions dict and P1's
paper, ink, supported and speed exactly as scheduled. -/
theorem c5_witness :
    (cancel_order cs1 "O1" none).1.versions = cs1.versions ∧
    ∃ info0, Dict.lookup? cs1.printers "P1" = some info0 ∧
      csinfo2.paper_count = info0.paper_count ∧ csinfo2.ink = info0.ink ∧
      csinfo2.supported = info0.supported ∧ csinfo2.speed = info0.speed :=
  ⟨(c5_cancel_no_restore cs1 "O1" none).1,
   (c5_cancel_no_restore cs1 "O1" none).2.2.2 "P1" csinfo2 rfl⟩

/-! ### C1: cache hits bypass validate-and-consume -/

/-- C1: whenever the order validates and the cache lookup keyed on the
current snapshot hits, `schedule_order` returns the cached result
verbatim — no `validate_and_consume` runs against the then-current
state, and the printers, versions and weights are returned unchanged;
there is no freshness re-check that could turn a stale hit into a
miss. -/
theorem c1_cache_hit_returned_verbatim (s : SchedState) (order : Order)
    (order_id : Option String) (priority : Int) (dpm : Option (Dict (List String)))
    (now : Nat) (cached : SchedResult) (cache2 : List (CacheKey × CacheEntry))
    (hv : validate_order order = true)
    (hget : cache_get s.cache (order, create_snapshot s.printers) now =
      (some cached, cache2)) :
    schedule_order s order order_id priority dpm now =
      ({ s with cache := cache2 }, .ok cached) := by
  simp only [schedule_order, hv, hget, Bool.not_true, Bool.false_eq_true, if_false]

def pnsnapA : PrinterSnap := ⟨[("A4", 40)], [("black", 70)], 0⟩

def snapA : Dict PrinterSnap := [("P1", pnsnapA)]

def cs1c : SchedState :=
  { printers := [("P1", csinfo1)], versions := [("P1", 1)], weights := [],
    cache := [((csorder, snapA), ⟨csres, 0⟩)] }

def cs2c : SchedState :=
  { printers := [("P1", csinfo2)], versions := [("P1", 1)], weights := [],
    cache := [((csorder, snapA), ⟨csres, 0⟩)] }

/-- C1 counterexample: schedule the order (consuming down to 40 A4
sheets; the aliased snapshot caches the POST-consumption resources with
the PRE-push queue size), cancel it (emptying the queue, restoring
nothing), then schedule the same order again.  The second call hits the
cache and returns the first call's result verbatim — order id "O1",
printer assignment and all — with no state change, even though a
then-current `validate_and_consume` rejects the order for lack of
paper (40 < 60).  The stale hit is NOT rejected and NOT treated as a
miss. -/
theorem c1_counterexample :
    schedule_order cs0 csorder (some "O1") 5 none 0 = (cs1c, .ok csres) ∧
    cancel_order cs1c "O1" none = (cs2c, true) ∧
    schedule_order cs2c csorder (some "O2") 5 none 1 = (cs2c, .ok csres) ∧
    (validate_and_consume cs2c.versions "P1" csinfo2 [("bw", ⟨[("A4", 60)]⟩)]
      (get_snapshot cs2c.versions "P1" csinfo2 1)).2 =
      some (.insufficientResource "P1" "paper:A4") := by
  refine ⟨?_, rfl, rfl, rfl⟩
  have hv : validate_order csorder = true := by decide
  have hmiss : cache_get cs0.cache (csorder, create_snapshot cs0.printers) 0 =
      (none, cs0.cache) := rfl
  have he : ({ cs0 with cache := cs0.cache } : SchedState) = cs0 := rfl
  simp only [schedule_order, hv, hmiss, Bool.not_true, Bool.false_eq_true, if_false,
    Option.getD_some, he, schedule_retry, cs_internal_eval]
  rfl

/-- C1 witness: the cache-hit theorem applied to the post-cancel state
whose snapshot matches the aliased cached key: the stale result comes
back verbatim with the state unchanged. -/
theorem c1_witness :
    schedule_order cs2c csorder (some "O2") 5 none 1 =
      ({ cs2c with cache := cs2c.cache }, .ok csres) :=
  c1_cache_hit_returned_verbatim cs2c csorder (some "O2") 5 none 1 csres cs2c.cache
    (by decide) rfl

end PrintSched
